import Mathlib

/-!
Verification of the upstream-watershed resolver `get_upstream_subwatersheds`
from `src/utils.py` of the deep-wenokn repository.

The Python function is a pipeline around two external collaborators: the
shapely/geopandas geometry library and the USGS HUC12 ArcGIS feature service.
Both are modelled as oracle functions bundled in an `Oracles` record; the
pipeline itself (CRS normalization, bbox candidate fetch, exact intersection
filter, primary-HUC8 selection, FIFO upstream traversal with a 10,000-pop cap
and caught expansion failures, batched geometry materialization with caught
batch failures, and a final GeoDataFrame assembly that raises when zero
features were materialized) is embedded as executable Lean functions that
follow the Python line by line.

Python strings (HUC codes) are modelled as `List Char`; Python `set`s of codes
are modelled as duplicate-free lists in first-insertion order (only their
membership is ever observable in the claims).  `print` calls and the purely
diagnostic "terminal HUC12" block (utils.py lines 234-247), which only prints,
are not modelled.  Remote calls return `Except Unit _`, the `.error` case
standing for a requests exception / non-2xx `raise_for_status`.
-/

namespace Wenokn

/-- HUC codes are Python strings, modelled as lists of characters. -/
abbrev Huc := List Char

/-- The list-of-characters view of a string literal (for concrete instances). -/
def pyStr (s : String) : Huc := s.data

/-- The exceptions `get_upstream_subwatersheds` can raise, one constructor per
raising site (utils.py lines 159, 164, 190-195, 201, 213, 328). -/
inductive Err
  | noCrs            -- ValueError("river_gdf must have a CRS defined"), line 159
  | emptyGdf         -- IndexError from `river_gdf.geometry.iloc[0]`, line 164
  | httpError        -- requests exception / raise_for_status() on the bbox query, lines 190-191
  | apiError         -- RuntimeError(f"API Error: ..."), line 195
  | noHucsInBounds   -- RuntimeError("No HUC12s found intersecting river bounds"), line 201
  | noIntersection   -- RuntimeError("No HUC12s intersect the river geometry"), line 213
  | emptyAssembly    -- ValueError from GeoDataFrame.from_features(all_features, crs=...) on an
                     -- empty feature list, line 328 (the spec's EmptyResultError)
deriving DecidableEq, Repr

/-- A CRS object; `toEpsg` models `crs.to_epsg()` which may return `None`. -/
structure CRSInfo where
  toEpsg : Option Nat
deriving DecidableEq, Repr

/-- The input GeoDataFrame: a CRS (possibly absent) and one geometry per row. -/
structure RiverGDF (G : Type) where
  crs : Option CRSInfo
  geometries : List G

/-- One HUC12 feature as returned by the feature service with geometry
(fields `huc12`, `tohuc`, `name` plus the polygon geometry). -/
structure HucFeature (G : Type) where
  huc12 : Huc
  tohuc : Huc
  hname : Huc
  geom : G

/-- One record of a `tohuc = '<code>'` attribute query (utils.py line 274:
`outFields: huc12,tohuc`, no geometry). -/
structure DrainRec where
  huc12 : Huc
  tohuc : Huc
deriving DecidableEq, Repr

/-- Parsed JSON body of the initial bbox query: an optional embedded error
field and an optional `features` array (`data.get("features", [])`). -/
structure BboxResp (G : Type) where
  hasError : Bool
  features? : Option (List (HucFeature G))

/-- Parsed JSON body of a `huc12 IN (...)` geometry batch query; the code
only reads `features` when the key is present (utils.py line 318). -/
structure GeomResp (G : Type) where
  features? : Option (List (HucFeature G))

/-- The external collaborators of the pipeline: shapely's `intersects`,
geopandas' per-geometry `to_crs` reprojection, `total_bounds`, and the three
HTTP query shapes against the HUC12 feature service. -/
structure Oracles (G B : Type) where
  intersects : G → G → Bool
  toCrs : G → G
  totalBounds : List G → B
  bboxQuery : B → Except Unit (BboxResp G)
  drainQuery : Huc → Except Unit (List DrainRec)
  codesQuery : List Huc → Except Unit (GeomResp G)

variable {G B : Type}

/-- Step 1 of the pipeline (utils.py lines 157-161): fail when the input has
no CRS; reproject each row to EPSG:4326 when `crs.to_epsg() != 4326`;
otherwise use the input unchanged. -/
def normalizeCrs (o : Oracles G B) (river_gdf : RiverGDF G) : Except Err (RiverGDF G) :=
  match river_gdf.crs with
  | none => .error .noCrs
  | some c =>
    if c.toEpsg ≠ some 4326 then
      .ok ⟨some ⟨some 4326⟩, river_gdf.geometries.map o.toCrs⟩
    else
      .ok river_gdf

/-- Step 3 of the pipeline (utils.py lines 170-201): the bbox query, its
HTTP / embedded-error handling, and the empty-candidate check. -/
def fetchCandidates (o : Oracles G B) (gdf : RiverGDF G) : Except Err (List (HucFeature G)) :=
  match o.bboxQuery (o.totalBounds gdf.geometries) with
  | .error _ => .error .httpError
  | .ok data =>
    if data.hasError then .error .apiError
    else
      let features := data.features?.getD []
      if features.isEmpty then .error .noHucsInBounds
      else .ok features

/-- The 8-character basin prefix of a HUC12 code: `huc12[:8]` (line 217). -/
def huc8of (c : Huc) : Huc := c.take 8

/-- `series.value_counts().idxmax()` (lines 218, 225): the element with the
largest number of occurrences; pandas breaks count ties by first occurrence. -/
def idxmaxCount (l : List Huc) : Huc :=
  (l.foldl (fun best c =>
      match best with
      | none => some c
      | some b => if l.count c > l.count b then some c else best) none).getD []

/-- `list(set(xs))` (lines 232, 251): the distinct elements of `xs`; the set's
iteration order is unspecified in Python, fixed here as first occurrence. -/
def pySet (l : List Huc) : List Huc :=
  l.foldl (fun acc c => if c ∈ acc then acc else acc ++ [c]) []

/-- Inner `for feat in r.json().get("features", [])` loop of the traversal
(utils.py lines 283-288): thread the growing `upstream` set, collecting the
newly appended codes (which the Python code pushes onto `to_process`). -/
def addNew (primary_huc8 : Huc) (feats : List DrainRec) (upstream newq : List Huc) :
    List Huc × List Huc :=
  match feats with
  | [] => (upstream, newq)
  | f :: rest =>
    if primary_huc8.isPrefixOf f.huc12 = true ∧ f.huc12 ∉ upstream then
      addNew primary_huc8 rest (upstream ++ [f.huc12]) (newq ++ [f.huc12])
    else
      addNew primary_huc8 rest upstream newq

/-- Final state of the traversal loop: the `upstream` set, the `processed`
set, the worklist (`to_process`) left at exit, and the number of executed
loop iterations (`iteration`). -/
structure TravResult where
  upstream : List Huc
  processed : List Huc
  remaining : List Huc
  pops : Nat
deriving Repr

/-- The `while to_process and iteration < max_iterations` loop (utils.py
lines 259-290).  `fuel` is the number of iterations still allowed, so the
loop below runs while `to_process` is nonempty and fuel remains; a failing
`drainQuery` is caught: the popped code stays processed and nothing is added
(lines 279-290). -/
def travLoop (dq : Huc → Except Unit (List DrainRec)) (primary_huc8 : Huc) :
    Nat → List Huc → List Huc → List Huc → Nat → TravResult
  | 0, upstream, to_process, processed, pops =>
      ⟨upstream, processed, to_process, pops⟩
  | fuel + 1, upstream, to_process, processed, pops =>
      match to_process with
      | [] => ⟨upstream, processed, [], pops⟩
      | current_huc :: rest =>
        if current_huc ∈ processed then
          travLoop dq primary_huc8 fuel upstream rest processed (pops + 1)
        else
          match dq current_huc with
          | .error _ =>
              travLoop dq primary_huc8 fuel upstream rest
                (processed ++ [current_huc]) (pops + 1)
          | .ok feats =>
              let res := addNew primary_huc8 feats upstream []
              travLoop dq primary_huc8 fuel res.1 (rest ++ res.2)
                (processed ++ [current_huc]) (pops + 1)

/-- `max_iterations = 10000` (utils.py line 256). -/
def max_iterations : Nat := 10000

/-- Step 7 of the pipeline (utils.py lines 249-290): start with the river's
codes as both `upstream` and the worklist, `processed` empty, and run the
capped loop. -/
def runTraversal (dq : Huc → Except Unit (List DrainRec)) (primary_huc8 : Huc)
    (river_huc_codes : List Huc) : TravResult :=
  travLoop dq primary_huc8 max_iterations river_huc_codes river_huc_codes [] 0

/-- Structural worker for `chunks`: `fuel` only funds the recursion (each
step consumes at least one list element, so `fuel = l.length` suffices). -/
def chunksAux : Nat → List Huc → List (List Huc)
  | 0, _ => []
  | _, [] => []
  | fuel + 1, c :: cs => ((c :: cs).take 20) :: chunksAux fuel ((c :: cs).drop 20)

/-- `chunks(lst, n=20)` (utils.py lines 298-300) at its only call site's
batch size of 20: split into consecutive slices of at most 20 codes. -/
def chunks (l : List Huc) : List (List Huc) := chunksAux l.length l

/-- Body of the batch loop (utils.py lines 304-323): a failing batch request
is caught and skipped; a 200 response without a `features` key contributes
nothing; otherwise its features are appended. -/
def matStep (cq : List Huc → Except Unit (GeomResp G))
    (all_features : List (HucFeature G)) (batch : List Huc) : List (HucFeature G) :=
  match cq batch with
  | .error _ => all_features
  | .ok geojson_data =>
    match geojson_data.features? with
    | some fs => all_features ++ fs
    | none => all_features

/-- Step 8 of the pipeline (utils.py lines 297-325): fetch geometries for all
upstream codes in batches of 20, accumulating whatever arrives. -/
def materialize (cq : List Huc → Except Unit (GeomResp G)) (upstream : List Huc) :
    List (HucFeature G) :=
  (chunks upstream).foldl (matStep cq) []

/-- The whole of `get_upstream_subwatersheds` (utils.py lines 149-329).
The final `gpd.GeoDataFrame.from_features(all_features, crs="EPSG:4326")`
(line 328, unguarded, unlike line 201) raises a ValueError in current
geopandas when `all_features` is empty — assigning a CRS to a frame with no
geometry column is not supported — so zero materialized features are a
failure (the spec's EmptyResultError); otherwise the feature list is
wrapped in a GeoDataFrame and returned. -/
def get_upstream_subwatersheds (o : Oracles G B) (river_gdf : RiverGDF G) :
    Except Err (List (HucFeature G)) :=
  match normalizeCrs o river_gdf with
  | .error e => .error e
  | .ok gdf =>
    match gdf.geometries with
    | [] => .error .emptyGdf
    | river_geom :: _ =>
      match fetchCandidates o gdf with
      | .error e => .error e
      | .ok features =>
        let river_hucs := features.filter (fun f => o.intersects f.geom river_geom)
        if river_hucs.isEmpty then .error .noIntersection
        else
          let primary_huc8 := idxmaxCount (river_hucs.map (fun f => huc8of f.huc12))
          let river_huc_codes :=
            pySet ((river_hucs.filter (fun f => huc8of f.huc12 == primary_huc8)).map
              (fun f => f.huc12))
          let tr := runTraversal o.drainQuery primary_huc8 river_huc_codes
          let all_features := materialize o.codesQuery tr.upstream
          if all_features.isEmpty then .error .emptyAssembly
          else .ok all_features

/-! ## Specification-side notions used to state the claims -/

/-- Reverse reachability along the drains-to relation, restricted to the
selected basin: the codes the traversal is meant to collect.  Base case: the
river's own codes.  Step: a unit that drains into a reachable unit and lies
in the selected basin. -/
inductive UpReach (dq : Huc → Except Unit (List DrainRec)) (primary_huc8 : Huc)
    (init : List Huc) : Huc → Prop
  | base (c : Huc) : c ∈ init → UpReach dq primary_huc8 init c
  | step (c : Huc) (feats : List DrainRec) (r : DrainRec) :
      UpReach dq primary_huc8 init c → dq c = .ok feats → r ∈ feats →
      primary_huc8.isPrefixOf r.huc12 = true → UpReach dq primary_huc8 init r.huc12

/-- One reversed drains-to edge inside the selected basin: `d` is reported as
draining into `c` and carries the basin prefix. -/
def EdgeTo (dq : Huc → Except Unit (List DrainRec)) (primary_huc8 : Huc) (c d : Huc) : Prop :=
  ∃ feats r, dq c = .ok feats ∧ r ∈ feats ∧ r.huc12 = d ∧
    primary_huc8.isPrefixOf d = true

/-- The drains-to graph (restricted to the basin) has no cycles. -/
def NoDrainCycle (dq : Huc → Except Unit (List DrainRec)) (primary_huc8 : Huc) : Prop :=
  ∀ c, ¬ Relation.TransGen (EdgeTo dq primary_huc8) c c

/-- The number of features one batch contributes to `materialize`. -/
def respLen (cq : List Huc → Except Unit (GeomResp G)) (b : List Huc) : Nat :=
  match cq b with
  | .error _ => 0
  | .ok resp => (resp.features?.getD []).length

/-- The `river_hucs` selection (utils.py lines 206-208): candidates whose
geometry intersects the first row's river geometry. -/
def riverHucsOf (o : Oracles G B) (river_geom : G) (features : List (HucFeature G)) :
    List (HucFeature G) :=
  features.filter (fun f => o.intersects f.geom river_geom)

/-- The `primary_huc8` selection (utils.py lines 215-225). -/
def primaryOf (o : Oracles G B) (river_geom : G) (features : List (HucFeature G)) : Huc :=
  idxmaxCount ((riverHucsOf o river_geom features).map (fun f => huc8of f.huc12))

/-- The `river_huc_codes` set (utils.py lines 228-232): distinct codes of the
intersecting units restricted to the primary basin. -/
def riverCodesOf (o : Oracles G B) (river_geom : G) (features : List (HucFeature G)) :
    List Huc :=
  pySet (((riverHucsOf o river_geom features).filter
    (fun f => huc8of f.huc12 == primaryOf o river_geom features)).map (fun f => f.huc12))

/-! ## Concrete instances used for witnesses and counterexamples -/

/-- Chain code number `k`: the string of `k` copies of the character `a`;
distinct codes are told apart by their length. -/
def chainX (k : Nat) : Huc := List.replicate k 'a'

/-- Drain-target oracle of a pure drains-to chain of 10,002 units:
`chainX (k+1)` drains into `chainX k` for `1 ≤ k ≤ 10001`, and the chain
top `chainX 10002` has no upstream neighbor.  Every query succeeds. -/
def dqC2 : Huc → Except Unit (List DrainRec) := fun c =>
  if c = [] then .ok []
  else if c.all (· == 'a') = true ∧ c.length < 10002 then .ok [⟨chainX (c.length + 1), c⟩]
  else .ok []

/-- The 10,002 units of the chain graph. -/
def SC2 : List Huc := (List.range 10002).map (fun i => chainX (i + 1))

/-- Drain-target oracle with one failing code: the root `['r']` has upstream
neighbors `['f']` (whose own expansion query fails) and the chain bottom
`chainX 1`; the chain continues as in `dqC2`. -/
def dqC4 : Huc → Except Unit (List DrainRec) := fun c =>
  if c = ['r'] then .ok [⟨['f'], ['r']⟩, ⟨chainX 1, ['r']⟩]
  else if c = ['f'] then .error ()
  else if c ≠ [] ∧ c.all (· == 'a') = true ∧ c.length < 10002 then
    .ok [⟨chainX (c.length + 1), c⟩]
  else .ok []

/-- All units reachable in `dqC4` once the failing code is treated as having
no upstream neighbors. -/
def SC4 : List Huc := ['r'] :: ['f'] :: SC2

/-- A trivial oracle bundle over `Unit` geometries: everything intersects,
the bbox query returns an empty candidate list. -/
def oUnit : Oracles Unit Unit :=
  ⟨fun _ _ => true, id, fun _ => (), fun _ => .ok ⟨false, some []⟩,
   fun _ => .ok [], fun _ => .ok ⟨some []⟩⟩

/-- A one-row input GeoDataFrame already in EPSG:4326. -/
def gdfUnit4326 : RiverGDF Unit := ⟨some ⟨some 4326⟩, [()]⟩

/-- A one-row input GeoDataFrame with no CRS at all. -/
def gdfNoCrs : RiverGDF Unit := ⟨none, [()]⟩

/-- A single candidate HUC12 unit with a trivial geometry. -/
def unitFeat : HucFeature Unit := ⟨pyStr "010100010101", pyStr "010100010100", pyStr "x", ()⟩

/-- Code number `i` of the C5 counterexample basin: the shared 8-character
prefix `01010001` followed by `i+1` copies of `x` (distinct by length). -/
def c5code (i : Nat) : Huc := pyStr "01010001" ++ List.replicate (i + 1) 'x'

/-- The 21 codes of the C5 counterexample basin: one river unit and its 20
upstream neighbors, giving two geometry batches (20 codes and 1 code). -/
def c5codes : List Huc := (List.range 21).map c5code

/-- Oracle bundle whose bbox query returns the river unit `c5code 0`, whose
drain-target query reports 20 upstream neighbors for it, and whose
geometry-batch query fails for the second batch `[c5code 20]` while
returning one feature per code for every other batch. -/
def oC5b : Oracles Unit Unit :=
  ⟨fun _ _ => true, id, fun _ => (),
   fun _ => .ok ⟨false, some [⟨c5code 0, pyStr "", pyStr "", ()⟩]⟩,
   fun c => if c = c5code 0 then
      .ok ((List.range 20).map (fun i => ⟨c5code (i + 1), c5code 0⟩))
    else .ok [],
   fun b => if b = [c5code 20] then .error ()
    else .ok ⟨some (b.map (fun cc => ⟨cc, cc, [], ()⟩))⟩⟩

/-- Oracle bundle whose bbox query fails at the HTTP level. -/
def oW5 : Oracles Unit Unit :=
  ⟨fun _ _ => true, id, fun _ => (), fun _ => .error (),
   fun _ => .ok [], fun _ => .ok ⟨some []⟩⟩

/-- Oracle bundle with one candidate unit, no upstream neighbors, and a
geometry-batch query returning one feature per requested code. -/
def oW7 : Oracles Unit Unit :=
  ⟨fun _ _ => true, id, fun _ => (),
   fun _ => .ok ⟨false, some [unitFeat]⟩,
   fun _ => .ok [],
   fun b => .ok ⟨some (b.map (fun cc => ⟨cc, cc, [], ()⟩))⟩⟩

/-- A candidate unit whose HUC12 code is the empty string, so that the
primary basin prefix it induces is the empty prefix. -/
def c7feat : HucFeature Unit := ⟨[], [], [], ()⟩

/-- Drain-target oracle of a pure drains-to chain rooted at the empty code:
`chainX k` (for `k < 10002`, including `chainX 0 = []`) has the single
upstream neighbor `chainX (k+1)`; every query succeeds. -/
def dqC7 : Huc → Except Unit (List DrainRec) := fun c =>
  if c.all (· == 'a') = true ∧ c.length < 10002 then .ok [⟨chainX (c.length + 1), c⟩]
  else .ok []

/-- Oracle bundle whose bbox query returns the single unit `c7feat`, whose
drain-target oracle is the long chain `dqC7` (forcing the 10,000-pop cap to
be reached), and whose geometry-batch query always fails. -/
def oC7 : Oracles Unit Unit :=
  ⟨fun _ _ => true, id, fun _ => (),
   fun _ => .ok ⟨false, some [c7feat]⟩,
   dqC7, fun _ => .error ()⟩

/-- Oracle bundle over `Nat` geometries whose intersection test is equality
of the numbers, with two candidate units of geometries 1 and 5. -/
def oW10 : Oracles Nat Unit :=
  ⟨fun a b => a == b, id, fun _ => (),
   fun _ => .ok ⟨false, some [⟨pyStr "010100010101", [], [], 1⟩,
     ⟨pyStr "020200020202", [], [], 5⟩]⟩,
   fun _ => .ok [], fun _ => .ok ⟨some []⟩⟩

/-- Two inputs sharing the first row's geometry (and CRS) but with different
later rows. -/
def gdfW10a : RiverGDF Nat := ⟨some ⟨some 4326⟩, [1, 2]⟩

/-- See `gdfW10a`. -/
def gdfW10b : RiverGDF Nat := ⟨some ⟨some 4326⟩, [1, 7, 9]⟩

/-- A drain-target oracle with no upstream neighbors anywhere. -/
def dqW2 : Huc → Except Unit (List DrainRec) := fun _ => .ok []

/-- A two-unit graph whose only expansion reports `b` draining into `a`;
every other query (in particular the one for `b`) fails. -/
def dqW4 : Huc → Except Unit (List DrainRec) := fun c =>
  if c = pyStr "a" then .ok [⟨pyStr "b", pyStr "a"⟩] else .error ()

/-- 45 distinct codes, giving three geometry batches of 20, 20 and 5. -/
def w6codes : List Huc := (List.range 45).map (fun i => chainX (i + 1))

/-- First batch of `w6codes`. -/
def w6b0 : List Huc := w6codes.take 20

/-- Second batch of `w6codes` (the one made to fail). -/
def w6b1 : List Huc := (w6codes.drop 20).take 20

/-- Third batch of `w6codes`. -/
def w6b2 : List Huc := (w6codes.drop 20).drop 20

/-- Geometry-batch oracle that fails exactly on the second batch of
`w6codes` and returns one feature per requested code otherwise. -/
def cqW6 : List Huc → Except Unit (GeomResp Unit) := fun b =>
  if b = w6b1 then .error ()
  else .ok ⟨some (b.map (fun cc => ⟨cc, [], [], ()⟩))⟩

/-! ## Generic list lemmas -/

@[simp]
lemma nil_isPrefixOf (l : Huc) : ([] : Huc).isPrefixOf l = true := by
  cases l <;> rfl

lemma take_isPrefixOf : ∀ (n : Nat) (l : Huc), (l.take n).isPrefixOf l = true := by
  intro n l
  induction l generalizing n with
  | nil => cases n <;> rfl
  | cons a as ih =>
    cases n with
    | zero => rfl
    | succ m => simpa [List.take, List.isPrefixOf] using ih m

lemma length_eq_of_nodup_iff {l l' : List Huc} (h : l.Nodup) (h' : l'.Nodup)
    (hm : ∀ x, x ∈ l ↔ x ∈ l') : l.length = l'.length := by
  have hfs : l.toFinset = l'.toFinset := by
    ext x
    simp [hm x]
  rw [← List.toFinset_card_of_nodup h, ← List.toFinset_card_of_nodup h', hfs]

lemma length_le_of_nodup_subset {l l' : List Huc} (h : l.Nodup)
    (hm : ∀ x ∈ l, x ∈ l') : l.length ≤ l'.length := by
  have hfs : l.toFinset ⊆ l'.toFinset := by
    intro x hx
    simp only [List.mem_toFinset] at hx ⊢
    exact hm x hx
  calc l.length = l.toFinset.card := (List.toFinset_card_of_nodup h).symm
    _ ≤ l'.toFinset.card := Finset.card_le_card hfs
    _ ≤ l'.length := l'.toFinset_card_le

/-! ## Lemmas about `pySet` -/

lemma pySet_mem_aux (l : List Huc) :
    ∀ (acc : List Huc) (x : Huc),
      x ∈ l.foldl (fun acc c => if c ∈ acc then acc else acc ++ [c]) acc ↔
        x ∈ acc ∨ x ∈ l := by
  induction l with
  | nil => intro acc x; simp
  | cons c rest ih =>
    intro acc x
    simp only [List.foldl_cons]
    by_cases hc : c ∈ acc
    · rw [if_pos hc, ih]
      constructor
      · rintro (h | h)
        · exact Or.inl h
        · exact Or.inr (List.mem_cons_of_mem _ h)
      · rintro (h | h)
        · exact Or.inl h
        · rcases List.mem_cons.mp h with rfl | h'
          · exact Or.inl hc
          · exact Or.inr h'
    · rw [if_neg hc, ih]
      simp only [List.mem_append, List.mem_singleton, List.mem_cons]
      tauto

lemma disjoint_singleton_of_not_mem {l : List Huc} {x : Huc} (h : x ∉ l) :
    l.Disjoint [x] := by
  intro a ha hmem
  rw [List.mem_singleton] at hmem
  exact h (hmem ▸ ha)

lemma pySet_mem (l : List Huc) (x : Huc) : x ∈ pySet l ↔ x ∈ l := by
  unfold pySet
  rw [pySet_mem_aux]
  simp

lemma pySet_nodup_aux (l : List Huc) :
    ∀ (acc : List Huc), acc.Nodup →
      (l.foldl (fun acc c => if c ∈ acc then acc else acc ++ [c]) acc).Nodup := by
  induction l with
  | nil => intro acc h; simpa
  | cons c rest ih =>
    intro acc h
    simp only [List.foldl_cons]
    by_cases hc : c ∈ acc
    · rw [if_pos hc]; exact ih acc h
    · rw [if_neg hc]
      refine ih _ ?_
      rw [List.nodup_append]
      exact ⟨h, List.nodup_singleton c, disjoint_singleton_of_not_mem hc⟩

lemma pySet_nodup (l : List Huc) : (pySet l).Nodup :=
  pySet_nodup_aux l [] List.nodup_nil

/-! ## Lemmas about `addNew` -/

lemma addNew_nil (p : Huc) (up q : List Huc) : addNew p [] up q = (up, q) := rfl

lemma addNew_cons (p : Huc) (f : DrainRec) (rest : List DrainRec) (up q : List Huc) :
    addNew p (f :: rest) up q =
      if p.isPrefixOf f.huc12 = true ∧ f.huc12 ∉ up then
        addNew p rest (up ++ [f.huc12]) (q ++ [f.huc12])
      else addNew p rest up q := rfl

lemma addNew_decomp (p : Huc) :
    ∀ (feats : List DrainRec) (up q : List Huc),
      ∃ d, addNew p feats up q = (up ++ d, q ++ d) := by
  intro feats
  induction feats with
  | nil => intro up q; exact ⟨[], by simp [addNew_nil]⟩
  | cons f rest ih =>
    intro up q
    rw [addNew_cons]
    by_cases h : p.isPrefixOf f.huc12 = true ∧ f.huc12 ∉ up
    · obtain ⟨d, hd⟩ := ih (up ++ [f.huc12]) (q ++ [f.huc12])
      exact ⟨f.huc12 :: d, by rw [if_pos h, hd]; simp⟩
    · obtain ⟨d, hd⟩ := ih up q
      exact ⟨d, by rw [if_neg h, hd]⟩

lemma addNew_mem (p : Huc) :
    ∀ (feats : List DrainRec) (up q x : _),
      x ∈ (addNew p feats up q).1 ↔
        x ∈ up ∨ ∃ r, r ∈ feats ∧ r.huc12 = x ∧ p.isPrefixOf x = true := by
  intro feats
  induction feats with
  | nil => intro up q x; simp [addNew_nil]
  | cons f rest ih =>
    intro up q x
    rw [addNew_cons]
    by_cases h : p.isPrefixOf f.huc12 = true ∧ f.huc12 ∉ up
    · rw [if_pos h, ih]
      constructor
      · rintro (hmem | ⟨r, hr, hx, hp⟩)
        · rcases List.mem_append.mp hmem with hup | hf
          · exact Or.inl hup
          · have hx : x = f.huc12 := by simpa using hf
            subst hx
            exact Or.inr ⟨f, List.mem_cons_self f rest, rfl, h.1⟩
        · exact Or.inr ⟨r, List.mem_cons_of_mem _ hr, hx, hp⟩
      · rintro (hup | ⟨r, hr, hx, hp⟩)
        · exact Or.inl (List.mem_append.mpr (Or.inl hup))
        · rcases List.mem_cons.mp hr with rfl | hr'
          · exact Or.inl (List.mem_append.mpr (Or.inr (by simp [hx])))
          · exact Or.inr ⟨r, hr', hx, hp⟩
    · rw [if_neg h, ih]
      constructor
      · rintro (hup | ⟨r, hr, hx, hp⟩)
        · exact Or.inl hup
        · exact Or.inr ⟨r, List.mem_cons_of_mem _ hr, hx, hp⟩
      · rintro (hup | ⟨r, hr, hx, hp⟩)
        · exact Or.inl hup
        · rcases List.mem_cons.mp hr with rfl | hr'
          · rcases not_and_or.mp h with hnp | hin
            · exact absurd (hx ▸ hp) hnp
            · exact Or.inl (hx ▸ not_not.mp hin)
          · exact Or.inr ⟨r, hr', hx, hp⟩

lemma addNew_nodup (p : Huc) :
    ∀ (feats : List DrainRec) (up q : List Huc), up.Nodup →
      (addNew p feats up q).1.Nodup := by
  intro feats
  induction feats with
  | nil => intro up q h; simpa [addNew_nil]
  | cons f rest ih =>
    intro up q h
    rw [addNew_cons]
    by_cases hc : p.isPrefixOf f.huc12 = true ∧ f.huc12 ∉ up
    · rw [if_pos hc]
      refine ih _ _ ?_
      rw [List.nodup_append]
      exact ⟨h, List.nodup_singleton _, disjoint_singleton_of_not_mem hc.2⟩
    · rw [if_neg hc]
      exact ih _ _ h

/-! ## Step equations and basic invariants of the traversal loop -/

variable {dq : Huc → Except Unit (List DrainRec)} {p : Huc}

lemma travLoop_zero (up tp proc : List Huc) (pops : Nat) :
    travLoop dq p 0 up tp proc pops = ⟨up, proc, tp, pops⟩ := rfl

lemma travLoop_succ_nil (fuel : Nat) (up proc : List Huc) (pops : Nat) :
    travLoop dq p (fuel + 1) up [] proc pops = ⟨up, proc, [], pops⟩ := rfl

lemma travLoop_succ_cons (fuel : Nat) (up rest proc : List Huc) (c : Huc) (pops : Nat) :
    travLoop dq p (fuel + 1) up (c :: rest) proc pops =
      if c ∈ proc then travLoop dq p fuel up rest proc (pops + 1)
      else
        match dq c with
        | .error _ => travLoop dq p fuel up rest (proc ++ [c]) (pops + 1)
        | .ok feats =>
            let res := addNew p feats up []
            travLoop dq p fuel res.1 (rest ++ res.2) (proc ++ [c]) (pops + 1) := rfl

lemma travLoop_skip {proc : List Huc} {c : Huc} (fuel : Nat) (up rest : List Huc)
    (pops : Nat) (h : c ∈ proc) :
    travLoop dq p (fuel + 1) up (c :: rest) proc pops =
      travLoop dq p fuel up rest proc (pops + 1) := by
  rw [travLoop_succ_cons, if_pos h]

lemma travLoop_err {proc : List Huc} {c : Huc} {e : Unit} (fuel : Nat) (up rest : List Huc)
    (pops : Nat) (h : c ∉ proc) (he : dq c = .error e) :
    travLoop dq p (fuel + 1) up (c :: rest) proc pops =
      travLoop dq p fuel up rest (proc ++ [c]) (pops + 1) := by
  rw [travLoop_succ_cons, if_neg h, he]

lemma travLoop_okstep {proc : List Huc} {c : Huc} {feats : List DrainRec} (fuel : Nat)
    (up rest : List Huc) (pops : Nat) (h : c ∉ proc) (he : dq c = .ok feats) :
    travLoop dq p (fuel + 1) up (c :: rest) proc pops =
      travLoop dq p fuel (addNew p feats up []).1 (rest ++ (addNew p feats up []).2)
        (proc ++ [c]) (pops + 1) := by
  rw [travLoop_succ_cons, if_neg h, he]

lemma travLoop_pops_le :
    ∀ (fuel : Nat) (up tp proc : List Huc) (pops : Nat),
      (travLoop dq p fuel up tp proc pops).pops ≤ pops + fuel := by
  intro fuel
  induction fuel with
  | zero => intro up tp proc pops; simp [travLoop_zero]
  | succ n ih =>
    intro up tp proc pops
    match tp with
    | [] => simp [travLoop_succ_nil]
    | c :: rest =>
      by_cases hc : c ∈ proc
      · rw [travLoop_skip n up rest pops hc]
        calc (travLoop dq p n up rest proc (pops + 1)).pops ≤ pops + 1 + n := ih _ _ _ _
          _ = pops + (n + 1) := by omega
      · cases hdq : dq c with
        | error e =>
          rw [travLoop_err n up rest pops hc hdq]
          calc (travLoop dq p n up rest (proc ++ [c]) (pops + 1)).pops
              ≤ pops + 1 + n := ih _ _ _ _
            _ = pops + (n + 1) := by omega
        | ok feats =>
          rw [travLoop_okstep n up rest pops hc hdq]
          calc (travLoop dq p n (addNew p feats up []).1 (rest ++ (addNew p feats up []).2)
                (proc ++ [c]) (pops + 1)).pops ≤ pops + 1 + n := ih _ _ _ _
            _ = pops + (n + 1) := by omega

lemma travLoop_processed_nodup :
    ∀ (fuel : Nat) (up tp proc : List Huc) (pops : Nat), proc.Nodup →
      (travLoop dq p fuel up tp proc pops).processed.Nodup := by
  intro fuel
  induction fuel with
  | zero => intro up tp proc pops h; simpa [travLoop_zero]
  | succ n ih =>
    intro up tp proc pops h
    match tp with
    | [] => simpa [travLoop_succ_nil]
    | c :: rest =>
      by_cases hc : c ∈ proc
      · rw [travLoop_skip n up rest pops hc]
        exact ih _ _ _ _ h
      · have hnd : (proc ++ [c]).Nodup := by
          rw [List.nodup_append]
          exact ⟨h, List.nodup_singleton _, disjoint_singleton_of_not_mem hc⟩
        cases hdq : dq c with
        | error e =>
          rw [travLoop_err n up rest pops hc hdq]
          exact ih _ _ _ _ hnd
        | ok feats =>
          rw [travLoop_okstep n up rest pops hc hdq]
          exact ih _ _ _ _ hnd

lemma travLoop_upstream_mono :
    ∀ (fuel : Nat) (up tp proc : List Huc) (pops : Nat) (x : Huc), x ∈ up →
      x ∈ (travLoop dq p fuel up tp proc pops).upstream := by
  intro fuel
  induction fuel with
  | zero => intro up tp proc pops x hx; simpa [travLoop_zero]
  | succ n ih =>
    intro up tp proc pops x hx
    match tp with
    | [] => simpa [travLoop_succ_nil]
    | c :: rest =>
      by_cases hc : c ∈ proc
      · rw [travLoop_skip n up rest pops hc]
        exact ih _ _ _ _ _ hx
      · cases hdq : dq c with
        | error e =>
          rw [travLoop_err n up rest pops hc hdq]
          exact ih _ _ _ _ _ hx
        | ok feats =>
          rw [travLoop_okstep n up rest pops hc hdq]
          refine ih _ _ _ _ _ ?_
          rw [addNew_mem]
          exact Or.inl hx

lemma travLoop_upstream_isPrefixOf :
    ∀ (fuel : Nat) (up tp proc : List Huc) (pops : Nat),
      (∀ c ∈ up, p.isPrefixOf c = true) →
      ∀ c ∈ (travLoop dq p fuel up tp proc pops).upstream, p.isPrefixOf c = true := by
  intro fuel
  induction fuel with
  | zero => intro up tp proc pops h c; simpa [travLoop_zero] using h c
  | succ n ih =>
    intro up tp proc pops h c
    match tp with
    | [] => simpa [travLoop_succ_nil] using h c
    | cc :: rest =>
      by_cases hc : cc ∈ proc
      · rw [travLoop_skip n up rest pops hc]
        exact ih _ _ _ _ h c
      · cases hdq : dq cc with
        | error e =>
          rw [travLoop_err n up rest pops hc hdq]
          exact ih _ _ _ _ h c
        | ok feats =>
          rw [travLoop_okstep n up rest pops hc hdq]
          refine ih _ _ _ _ ?_ c
          intro x hx
          rcases (addNew_mem p feats up [] x).mp hx with hold | ⟨r, _, _, hp⟩
          · exact h x hold
          · exact hp

/-! ## The master invariant of the traversal loop (BFS correctness) -/

lemma closed_upstream_eq (init S up : List Huc)
    (hchar : ∀ c, UpReach dq p init c ↔ c ∈ S)
    (hinit : ∀ c ∈ init, c ∈ up)
    (hsound : ∀ c ∈ up, UpReach dq p init c)
    (hclosed : ∀ c ∈ up, ∀ d, EdgeTo dq p c d → d ∈ up) :
    ∀ c, c ∈ up ↔ c ∈ S := by
  intro c
  constructor
  · intro h
    exact (hchar c).1 (hsound c h)
  · intro hS
    have hr := (hchar c).2 hS
    clear hS
    induction hr with
    | base c hc => exact hinit c hc
    | step c feats r hrc hdq hmem hpre ih =>
        exact hclosed c ih r.huc12 ⟨feats, r, hdq, hmem, rfl, hpre⟩

lemma travLoop_master (init S : List Huc)
    (hok : ∀ c ∈ S, ∃ l, dq c = .ok l)
    (hchar : ∀ c, UpReach dq p init c ↔ c ∈ S)
    (hN : S.length ≤ max_iterations) :
    ∀ (fuel : Nat) (up tp proc : List Huc) (pops : Nat),
      fuel + pops = max_iterations →
      pops = proc.length →
      up.Nodup →
      (proc ++ tp).Perm up →
      (∀ c ∈ init, c ∈ up) →
      (∀ c ∈ up, UpReach dq p init c) →
      (∀ c ∈ proc, ∀ d, EdgeTo dq p c d → d ∈ up) →
      (travLoop dq p fuel up tp proc pops).remaining = [] ∧
      (travLoop dq p fuel up tp proc pops).upstream.Nodup ∧
      (travLoop dq p fuel up tp proc pops).processed.Perm
        (travLoop dq p fuel up tp proc pops).upstream ∧
      (travLoop dq p fuel up tp proc pops).pops =
        (travLoop dq p fuel up tp proc pops).processed.length ∧
      (∀ c, c ∈ (travLoop dq p fuel up tp proc pops).upstream ↔ c ∈ S) := by
  intro fuel
  induction fuel with
  | zero =>
    intro up tp proc pops hfuel hpops hnd hperm hinit hsound hproc
    have hmax : max_iterations = 10000 := rfl
    have hup_sub : ∀ x ∈ up, x ∈ S := fun x hx => (hchar x).1 (hsound x hx)
    have hup_le : up.length ≤ S.length := length_le_of_nodup_subset hnd hup_sub
    have hlen : proc.length + tp.length = up.length := by
      have h := hperm.length_eq
      simpa using h
    have htp : tp = [] := List.eq_nil_of_length_eq_zero (by omega)
    subst htp
    rw [travLoop_zero]
    have hperm' : proc.Perm up := by simpa using hperm
    exact ⟨rfl, hnd, hperm', hpops,
      closed_upstream_eq init S up hchar hinit hsound
        (fun c hc d hd => hproc c (hperm'.mem_iff.mpr hc) d hd)⟩
  | succ n ih =>
    intro up tp proc pops hfuel hpops hnd hperm hinit hsound hproc
    match tp with
    | [] =>
      rw [travLoop_succ_nil]
      have hperm' : proc.Perm up := by simpa using hperm
      exact ⟨rfl, hnd, hperm', hpops,
        closed_upstream_eq init S up hchar hinit hsound
          (fun c hc d hd => hproc c (hperm'.mem_iff.mpr hc) d hd)⟩
    | c :: rest =>
      have hnd2 : (proc ++ c :: rest).Nodup := hperm.symm.nodup hnd
      have hcproc : c ∉ proc := by
        intro hcp
        rcases List.nodup_append.mp hnd2 with ⟨_, _, hdisj⟩
        exact hdisj hcp (List.mem_cons_self c rest)
      have hcup : c ∈ up := hperm.mem_iff.mp (by simp)
      have hcS : c ∈ S := (hchar c).1 (hsound c hcup)
      obtain ⟨feats, hdq⟩ := hok c hcS
      obtain ⟨d, hd⟩ := addNew_decomp p feats up []
      have h1 : (addNew p feats up []).1 = up ++ d := by rw [hd]
      have h2 : (addNew p feats up []).2 = d := by rw [hd]; simp
      rw [travLoop_okstep n up rest pops hcproc hdq, h1, h2]
      refine ih (up ++ d) (rest ++ d) (proc ++ [c]) (pops + 1)
        (by omega) (by simp; omega) (h1 ▸ addNew_nodup p feats up [] hnd) ?_ ?_ ?_ ?_
      · have heq : (proc ++ [c]) ++ (rest ++ d) = (proc ++ c :: rest) ++ d := by simp
        rw [heq]
        exact hperm.append_right d
      · intro x hx
        exact List.mem_append.mpr (Or.inl (hinit x hx))
      · intro x hx
        rcases List.mem_append.mp hx with hxu | hxd
        · exact hsound x hxu
        · have hx1 : x ∈ (addNew p feats up []).1 := by
            rw [h1]
            exact List.mem_append.mpr (Or.inr hxd)
          rcases (addNew_mem p feats up [] x).mp hx1 with hxu | ⟨r, hr, rfl, hp⟩
          · exact hsound x hxu
          · exact UpReach.step c feats r (hsound c hcup) hdq hr hp
      · intro y hy e he
        rcases List.mem_append.mp hy with hyp | hyc
        · exact List.mem_append.mpr (Or.inl (hproc y hyp e he))
        · have hyc' : y = c := by simpa using hyc
          subst hyc'
          obtain ⟨feats', r, hdq', hr, hre, hp⟩ := he
          rw [hdq] at hdq'
          injection hdq' with hf
          subst hf
          have hmem : e ∈ (addNew p feats up []).1 :=
            (addNew_mem p feats up [] e).mpr (Or.inr ⟨r, hr, hre, hp⟩)
          rw [h1] at hmem
          exact hmem

lemma runTraversal_master (init S : List Huc)
    (hinit_nodup : init.Nodup)
    (hSnd : S.Nodup)
    (hok : ∀ c ∈ S, ∃ l, dq c = .ok l)
    (hchar : ∀ c, UpReach dq p init c ↔ c ∈ S)
    (hN : S.length ≤ max_iterations) :
    (runTraversal dq p init).remaining = [] ∧
    (runTraversal dq p init).pops = S.length ∧
    (runTraversal dq p init).processed.Nodup ∧
    (∀ c, c ∈ (runTraversal dq p init).processed ↔ c ∈ S) ∧
    (∀ c, c ∈ (runTraversal dq p init).upstream ↔ c ∈ S) := by
  unfold runTraversal
  obtain ⟨hrem, hnd, hperm, hpops, hmem⟩ :=
    travLoop_master init S hok hchar hN max_iterations init init [] 0
      (by omega) rfl hinit_nodup (by simp)
      (fun c hc => hc) (fun c hc => UpReach.base c hc)
      (fun c hc => absurd hc (List.not_mem_nil c))
  refine ⟨hrem, ?_, hperm.symm.nodup hnd, ?_, hmem⟩
  · rw [hpops, hperm.length_eq]
    exact length_eq_of_nodup_iff hnd hSnd hmem
  · intro c
    rw [hperm.mem_iff]
    exact hmem c

lemma travLoop_congr (dqA dqB : Huc → Except Unit (List DrainRec)) (pfx : Huc)
    (h : ∀ c, dqB c = dqA c ∨ (∃ e, dqA c = .error e ∧ dqB c = .ok [])) :
    ∀ (fuel : Nat) (up tp proc : List Huc) (pops : Nat),
      travLoop dqA pfx fuel up tp proc pops = travLoop dqB pfx fuel up tp proc pops := by
  intro fuel
  induction fuel with
  | zero => intro up tp proc pops; rfl
  | succ n ih =>
    intro up tp proc pops
    match tp with
    | [] => rfl
    | c :: rest =>
      by_cases hc : c ∈ proc
      · rw [travLoop_skip n up rest pops hc, travLoop_skip n up rest pops hc]
        exact ih _ _ _ _
      · rcases h c with heq | ⟨e, hea, heb⟩
        · cases hdq : dqA c with
          | error e =>
            rw [travLoop_err n up rest pops hc hdq,
              travLoop_err n up rest pops hc (heq.trans hdq)]
            exact ih _ _ _ _
          | ok feats =>
            rw [travLoop_okstep n up rest pops hc hdq,
              travLoop_okstep n up rest pops hc (heq.trans hdq)]
            exact ih _ _ _ _
        · rw [travLoop_err n up rest pops hc hea,
            travLoop_okstep n up rest pops hc heb]
          simp only [addNew_nil, List.append_nil]
          exact ih _ _ _ _

/-! ## Lemmas about `chunks` and `materialize` -/

lemma chunksAux_zero (l : List Huc) : chunksAux 0 l = [] := by
  cases l <;> rfl

lemma chunksAux_flatten :
    ∀ (fuel : Nat) (l : List Huc), l.length ≤ fuel → (chunksAux fuel l).flatten = l := by
  intro fuel
  induction fuel with
  | zero =>
    intro l h
    have hl : l = [] := List.eq_nil_of_length_eq_zero (by omega)
    subst hl
    rfl
  | succ n ih =>
    intro l h
    match l with
    | [] => rfl
    | c :: cs =>
      show (((c :: cs).take 20) :: chunksAux n ((c :: cs).drop 20)).flatten = c :: cs
      rw [List.flatten_cons, ih ((c :: cs).drop 20) ?_]
      · exact List.take_append_drop 20 (c :: cs)
      · rw [List.length_drop]
        simp only [List.length_cons] at h ⊢
        omega

lemma chunks_flatten (l : List Huc) : (chunks l).flatten = l :=
  chunksAux_flatten l.length l le_rfl

lemma chunksAux_batch_le :
    ∀ (fuel : Nat) (l : List Huc), ∀ b ∈ chunksAux fuel l, b.length ≤ 20 := by
  intro fuel
  induction fuel with
  | zero =>
    intro l b hb
    rw [chunksAux_zero] at hb
    cases hb
  | succ n ih =>
    intro l b hb
    match l with
    | [] => cases hb
    | c :: cs =>
      rcases List.mem_cons.mp hb with rfl | hb'
      · have h := List.length_take 20 (c :: cs)
        omega
      · exact ih ((c :: cs).drop 20) b hb'

lemma chunks_batch_le (l : List Huc) : ∀ b ∈ chunks l, b.length ≤ 20 :=
  chunksAux_batch_le l.length l

lemma chunksAux_length :
    ∀ (fuel : Nat) (l : List Huc), l.length ≤ fuel →
      (chunksAux fuel l).length = (l.length + 19) / 20 := by
  intro fuel
  induction fuel with
  | zero =>
    intro l h
    have hl : l = [] := List.eq_nil_of_length_eq_zero (by omega)
    subst hl
    rfl
  | succ n ih =>
    intro l h
    match l with
    | [] => rfl
    | c :: cs =>
      show (((c :: cs).take 20) :: chunksAux n ((c :: cs).drop 20)).length = _
      rw [List.length_cons, ih ((c :: cs).drop 20) ?_]
      · rw [List.length_drop]
        simp only [List.length_cons]
        omega
      · rw [List.length_drop]
        simp only [List.length_cons] at h ⊢
        omega

lemma chunks_length (l : List Huc) : (chunks l).length = (l.length + 19) / 20 :=
  chunksAux_length l.length l le_rfl

lemma chunksAux_subset :
    ∀ (fuel : Nat) (l : List Huc), ∀ b ∈ chunksAux fuel l, ∀ x ∈ b, x ∈ l := by
  intro fuel
  induction fuel with
  | zero =>
    intro l b hb
    rw [chunksAux_zero] at hb
    cases hb
  | succ n ih =>
    intro l b hb x hx
    match l with
    | [] => cases hb
    | c :: cs =>
      rcases List.mem_cons.mp hb with rfl | hb'
      · exact List.take_subset 20 (c :: cs) hx
      · exact List.drop_subset 20 (c :: cs) (ih ((c :: cs).drop 20) b hb' x hx)

lemma chunks_subset (l : List Huc) : ∀ b ∈ chunks l, ∀ x ∈ b, x ∈ l :=
  chunksAux_subset l.length l

lemma matStep_length (cq : List Huc → Except Unit (GeomResp G))
    (acc : List (HucFeature G)) (b : List Huc) :
    (matStep cq acc b).length = acc.length + respLen cq b := by
  unfold matStep respLen
  cases hq : cq b with
  | error e => simp
  | ok resp =>
    cases hf : resp.features? with
    | some fs => simp [hf]
    | none => simp [hf]

lemma matFold_length (cq : List Huc → Except Unit (GeomResp G)) :
    ∀ (bs : List (List Huc)) (acc : List (HucFeature G)),
      (bs.foldl (matStep cq) acc).length = acc.length + (bs.map (respLen cq)).sum := by
  intro bs
  induction bs with
  | nil => intro acc; simp
  | cons b rest ih =>
    intro acc
    simp only [List.foldl_cons, ih, matStep_length, List.map_cons, List.sum_cons]
    omega

lemma materialize_length (cq : List Huc → Except Unit (GeomResp G)) (codes : List Huc) :
    (materialize cq codes).length = ((chunks codes).map (respLen cq)).sum := by
  unfold materialize
  rw [matFold_length]
  simp

lemma matStep_mem (cq : List Huc → Except Unit (GeomResp G))
    (acc : List (HucFeature G)) (b : List Huc) (f : HucFeature G) :
    f ∈ matStep cq acc b ↔
      f ∈ acc ∨ ∃ resp, cq b = .ok resp ∧ f ∈ resp.features?.getD [] := by
  unfold matStep
  cases hq : cq b with
  | error e => simp
  | ok resp =>
    cases hfs : resp.features? with
    | some fs => simp [hfs]
    | none => simp [hfs]

lemma matFold_mem (cq : List Huc → Except Unit (GeomResp G)) :
    ∀ (bs : List (List Huc)) (acc : List (HucFeature G)) (f : HucFeature G),
      f ∈ bs.foldl (matStep cq) acc →
        f ∈ acc ∨ ∃ b ∈ bs, ∃ resp, cq b = .ok resp ∧ f ∈ resp.features?.getD [] := by
  intro bs
  induction bs with
  | nil => intro acc f h; exact Or.inl (by simpa using h)
  | cons b rest ih =>
    intro acc f h
    simp only [List.foldl_cons] at h
    rcases ih _ _ h with hacc | ⟨b', hb', resp, hcq, hf⟩
    · rcases (matStep_mem cq acc b f).mp hacc with h1 | ⟨resp, hq, h2⟩
      · exact Or.inl h1
      · exact Or.inr ⟨b, List.mem_cons_self b rest, resp, hq, h2⟩
    · exact Or.inr ⟨b', List.mem_cons_of_mem b hb', resp, hcq, hf⟩

lemma materialize_mem (cq : List Huc → Except Unit (GeomResp G)) (codes : List Huc)
    (f : HucFeature G) (h : f ∈ materialize cq codes) :
    ∃ b ∈ chunks codes, ∃ resp, cq b = .ok resp ∧ f ∈ resp.features?.getD [] := by
  unfold materialize at h
  rcases matFold_mem cq (chunks codes) [] f h with habs | hgood
  · cases habs
  · exact hgood

lemma matStep_congr (cq cq' : List Huc → Except Unit (GeomResp G))
    (h : ∀ b, cq' b = cq b ∨ ((∃ e, cq b = .error e) ∧ cq' b = .ok ⟨some []⟩))
    (acc : List (HucFeature G)) (b : List Huc) :
    matStep cq' acc b = matStep cq acc b := by
  rcases h b with hb | ⟨⟨e, he⟩, hb⟩
  · unfold matStep
    rw [hb]
  · unfold matStep
    rw [he, hb]
    dsimp only
    exact List.append_nil acc

lemma materialize_congr (cq cq' : List Huc → Except Unit (GeomResp G))
    (h : ∀ b, cq' b = cq b ∨ ((∃ e, cq b = .error e) ∧ cq' b = .ok ⟨some []⟩))
    (up : List Huc) : materialize cq' up = materialize cq up := by
  unfold materialize
  rw [funext (fun acc => funext (fun b => matStep_congr cq cq' h acc b))]

lemma matFold_of_error (cq : List Huc → Except Unit (GeomResp G))
    (h : ∀ b, cq b = .error ()) :
    ∀ (bs : List (List Huc)) (acc : List (HucFeature G)),
      bs.foldl (matStep cq) acc = acc := by
  intro bs
  induction bs with
  | nil => intro acc; rfl
  | cons b rest ih =>
    intro acc
    rw [List.foldl_cons]
    have hs : matStep cq acc b = acc := by
      unfold matStep
      rw [h b]
    rw [hs]
    exact ih acc

lemma materialize_of_error (cq : List Huc → Except Unit (GeomResp G))
    (h : ∀ b, cq b = .error ()) (up : List Huc) : materialize cq up = [] := by
  unfold materialize
  exact matFold_of_error cq h (chunks up) []

/-! ## Unfolding lemmas for the pipeline -/

lemma normalizeCrs_wgs84 (o : Oracles G B) (gdf : RiverGDF G) (c : CRSInfo)
    (hc : gdf.crs = some c) (he : c.toEpsg = some 4326) :
    normalizeCrs o gdf = .ok gdf := by
  unfold normalizeCrs
  rw [hc]
  simp [he]

lemma normalizeCrs_none (o : Oracles G B) (gdf : RiverGDF G) (hc : gdf.crs = none) :
    normalizeCrs o gdf = .error .noCrs := by
  unfold normalizeCrs
  rw [hc]

lemma fetchCandidates_err (o : Oracles G B) (gdf : RiverGDF G)
    (hb : o.bboxQuery (o.totalBounds gdf.geometries) = .error ()) :
    fetchCandidates o gdf = .error .httpError := by
  unfold fetchCandidates
  rw [hb]

lemma fetchCandidates_ok (o : Oracles G B) (gdf : RiverGDF G) (resp : BboxResp G)
    (hb : o.bboxQuery (o.totalBounds gdf.geometries) = .ok resp)
    (herr : resp.hasError = false)
    (hne : (resp.features?.getD []).isEmpty = false) :
    fetchCandidates o gdf = .ok (resp.features?.getD []) := by
  unfold fetchCandidates
  rw [hb]
  simp [herr, hne]

lemma pipeline_err (o : Oracles G B) (river_gdf : RiverGDF G) (e : Err)
    (h1 : normalizeCrs o river_gdf = .error e) :
    get_upstream_subwatersheds o river_gdf = .error e := by
  unfold get_upstream_subwatersheds
  rw [h1]

lemma pipeline_fetch_err (o : Oracles G B) (river_gdf gdf : RiverGDF G)
    (river_geom : G) (rest : List G) (e : Err)
    (h1 : normalizeCrs o river_gdf = .ok gdf)
    (h2 : gdf.geometries = river_geom :: rest)
    (h3 : fetchCandidates o gdf = .error e) :
    get_upstream_subwatersheds o river_gdf = .error e := by
  unfold get_upstream_subwatersheds
  simp only [h1, h2, h3]

lemma pipeline_no_intersection (o : Oracles G B) (river_gdf gdf : RiverGDF G)
    (river_geom : G) (rest : List G) (features : List (HucFeature G))
    (h1 : normalizeCrs o river_gdf = .ok gdf)
    (h2 : gdf.geometries = river_geom :: rest)
    (h3 : fetchCandidates o gdf = .ok features)
    (h4 : (riverHucsOf o river_geom features).isEmpty = true) :
    get_upstream_subwatersheds o river_gdf = .error .noIntersection := by
  unfold get_upstream_subwatersheds
  simp only [h1, h2, h3]
  unfold riverHucsOf at h4
  simp [h4]

lemma pipeline_ok (o : Oracles G B) (river_gdf gdf : RiverGDF G)
    (river_geom : G) (rest : List G) (features : List (HucFeature G))
    (h1 : normalizeCrs o river_gdf = .ok gdf)
    (h2 : gdf.geometries = river_geom :: rest)
    (h3 : fetchCandidates o gdf = .ok features)
    (h4 : (riverHucsOf o river_geom features).isEmpty = false) :
    get_upstream_subwatersheds o river_gdf =
      (if (materialize o.codesQuery
            (runTraversal o.drainQuery (primaryOf o river_geom features)
              (riverCodesOf o river_geom features)).upstream).isEmpty
       then .error .emptyAssembly
       else .ok (materialize o.codesQuery
            (runTraversal o.drainQuery (primaryOf o river_geom features)
              (riverCodesOf o river_geom features)).upstream)) := by
  unfold get_upstream_subwatersheds
  simp only [h1, h2, h3]
  unfold riverHucsOf at h4
  simp [h4, riverHucsOf, primaryOf, riverCodesOf]

lemma pipeline_ok_of_nonempty (o : Oracles G B) (river_gdf gdf : RiverGDF G)
    (river_geom : G) (rest : List G) (features : List (HucFeature G))
    (h1 : normalizeCrs o river_gdf = .ok gdf)
    (h2 : gdf.geometries = river_geom :: rest)
    (h3 : fetchCandidates o gdf = .ok features)
    (h4 : (riverHucsOf o river_geom features).isEmpty = false)
    (h5 : (materialize o.codesQuery
        (runTraversal o.drainQuery (primaryOf o river_geom features)
          (riverCodesOf o river_geom features)).upstream).isEmpty = false) :
    get_upstream_subwatersheds o river_gdf =
      .ok (materialize o.codesQuery
        (runTraversal o.drainQuery (primaryOf o river_geom features)
          (riverCodesOf o river_geom features)).upstream) := by
  rw [pipeline_ok o river_gdf gdf river_geom rest features h1 h2 h3 h4, h5]
  rfl

/-! ## The claims -/

/-- C9: the geometry-normalization step fails when the input river geometry
carries no spatial reference at all (the code's `ValueError`, the spec's
`InvalidInputError`), and when the declared spatial reference is already
WGS84 (EPSG:4326) the input is used unchanged: for every possible
reprojection oracle the normalization returns the input itself, so no
reprojection is performed. -/
theorem C9_crs_normalization (o : Oracles G B) (gdf : RiverGDF G) (c : CRSInfo) :
    (gdf.crs = none → get_upstream_subwatersheds o gdf = .error .noCrs) ∧
    (gdf.crs = some c → c.toEpsg = some 4326 → normalizeCrs o gdf = .ok gdf) := by
  constructor
  · intro h
    exact pipeline_err o gdf .noCrs (normalizeCrs_none o gdf h)
  · intro h1 h2
    exact normalizeCrs_wgs84 o gdf c h1 h2

/-- Witness for C9: a CRS-less input fails, an EPSG:4326 one passes through
unchanged. -/
theorem C9_witness :
    get_upstream_subwatersheds oUnit gdfNoCrs = .error .noCrs ∧
    normalizeCrs oUnit gdfUnit4326 = .ok gdfUnit4326 :=
  ⟨(C9_crs_normalization oUnit gdfNoCrs ⟨some 4326⟩).1 rfl,
   (C9_crs_normalization oUnit gdfUnit4326 ⟨some 4326⟩).2 rfl rfl⟩

/-- C8: if the bbox query succeeds but zero catalog units intersect the
river — whether because the candidate list is empty or because no candidate
passes the exact geometry-intersection test — the resolver raises (the
code's two `RuntimeError`s, the spec's `NoIntersectionError`) rather than
returning an empty result. -/
theorem C8_no_intersection (o : Oracles G B) (gdf : RiverGDF G) (c : CRSInfo)
    (river_geom : G) (rest : List G) (resp : BboxResp G)
    (hcrs : gdf.crs = some c) (hepsg : c.toEpsg = some 4326)
    (hg : gdf.geometries = river_geom :: rest)
    (hbb : o.bboxQuery (o.totalBounds gdf.geometries) = .ok resp)
    (herr : resp.hasError = false)
    (hnone : ∀ f ∈ resp.features?.getD [], o.intersects f.geom river_geom = false) :
    get_upstream_subwatersheds o gdf =
      .error (if (resp.features?.getD []).isEmpty then .noHucsInBounds
              else .noIntersection) := by
  have h1 := normalizeCrs_wgs84 o gdf c hcrs hepsg
  cases hfe : (resp.features?.getD []).isEmpty with
  | true =>
    have h3 : fetchCandidates o gdf = .error .noHucsInBounds := by
      unfold fetchCandidates
      rw [hbb]
      simp [herr, hfe]
    rw [pipeline_fetch_err o gdf gdf river_geom rest .noHucsInBounds h1 hg h3]
    simp
  | false =>
    have h3 := fetchCandidates_ok o gdf resp hbb herr hfe
    have h4 : (riverHucsOf o river_geom (resp.features?.getD [])).isEmpty = true := by
      unfold riverHucsOf
      rw [List.isEmpty_iff, List.filter_eq_nil_iff]
      intro a ha
      simp [hnone a ha]
    rw [pipeline_no_intersection o gdf gdf river_geom rest _ h1 hg h3 h4]
    simp

/-- Witness for C8: an empty candidate list makes the call fail. -/
theorem C8_witness :
    get_upstream_subwatersheds oUnit gdfUnit4326 = .error .noHucsInBounds := by
  have h := C8_no_intersection oUnit gdfUnit4326 ⟨some 4326⟩ () [] ⟨false, some []⟩
    rfl rfl rfl rfl rfl (by intro f hf; simp at hf)
  simpa using h

/-- C3: for every drains-to oracle — including ones whose graph contains a
cycle such as A drains to B and B drains to A — the traversal terminates
within the iteration cap and never expands any single code more than once:
the pop count is bounded and the list of expanded (queried) codes has no
duplicates. -/
theorem C3_cycle_guard (dq : Huc → Except Unit (List DrainRec)) (primary_huc8 : Huc)
    (init : List Huc) :
    (runTraversal dq primary_huc8 init).pops ≤ max_iterations ∧
    (runTraversal dq primary_huc8 init).processed.Nodup := by
  unfold runTraversal
  constructor
  · simpa using travLoop_pops_le max_iterations init init [] 0
  · exact travLoop_processed_nodup max_iterations init init [] 0 List.nodup_nil

/-- C7 (amended): the traversal engine performs at most 10,000 worklist pops
per resolution call, and reaching the cap is not by itself an error path:
the call always proceeds to materialize exactly the upstream codes collected
so far, and succeeds whenever that materialization yields at least one
feature.  But the claim's "the call still succeeds" is unconditional only in
a model that ignores the final assembly: when every geometry batch comes
back empty or failing, the final `GeoDataFrame.from_features` raises, so a
cap-stopped traversal can still end in an error. -/
theorem C7_iteration_cap (o : Oracles G B) (river_gdf gdf : RiverGDF G)
    (river_geom : G) (rest : List G) (features : List (HucFeature G))
    (h1 : normalizeCrs o river_gdf = .ok gdf)
    (h2 : gdf.geometries = river_geom :: rest)
    (h3 : fetchCandidates o gdf = .ok features)
    (h4 : (riverHucsOf o river_geom features).isEmpty = false) :
    (runTraversal o.drainQuery (primaryOf o river_geom features)
        (riverCodesOf o river_geom features)).pops ≤ max_iterations ∧
    get_upstream_subwatersheds o river_gdf =
      (if (materialize o.codesQuery
            (runTraversal o.drainQuery (primaryOf o river_geom features)
              (riverCodesOf o river_geom features)).upstream).isEmpty
       then .error .emptyAssembly
       else .ok (materialize o.codesQuery
            (runTraversal o.drainQuery (primaryOf o river_geom features)
              (riverCodesOf o river_geom features)).upstream)) ∧
    ((materialize o.codesQuery
        (runTraversal o.drainQuery (primaryOf o river_geom features)
          (riverCodesOf o river_geom features)).upstream).isEmpty = false →
      get_upstream_subwatersheds o river_gdf =
        .ok (materialize o.codesQuery
          (runTraversal o.drainQuery (primaryOf o river_geom features)
            (riverCodesOf o river_geom features)).upstream)) := by
  refine ⟨?_, pipeline_ok o river_gdf gdf river_geom rest features h1 h2 h3 h4,
    fun h5 => pipeline_ok_of_nonempty o river_gdf gdf river_geom rest features h1 h2 h3 h4 h5⟩
  unfold runTraversal
  simpa using travLoop_pops_le max_iterations (riverCodesOf o river_geom features)
    (riverCodesOf o river_geom features) [] 0

/-- Witness for C7 (amended) at a concrete one-unit scenario whose single
geometry batch returns one feature. -/
theorem C7_witness :
    (runTraversal oW7.drainQuery (primaryOf oW7 () [unitFeat])
        (riverCodesOf oW7 () [unitFeat])).pops ≤ max_iterations ∧
    get_upstream_subwatersheds oW7 gdfUnit4326 =
      .ok (materialize oW7.codesQuery
        (runTraversal oW7.drainQuery (primaryOf oW7 () [unitFeat])
          (riverCodesOf oW7 () [unitFeat])).upstream) :=
  have h := C7_iteration_cap oW7 gdfUnit4326 gdfUnit4326 () [] [unitFeat] rfl rfl rfl rfl
  ⟨h.1, h.2.2 rfl⟩

/-- C10: only the first row's geometry feeds the exact intersection test:
for two inputs with the same CRS (already EPSG:4326), the same first-row
geometry, and a bbox query answering both inputs' bounds identically (the
bounds of all rows do feed that query), the whole resolution is identical —
geometries in rows after the first never contribute to intersection
membership. -/
theorem C10_first_row_geometry (o : Oracles G B) (gdf gdf2 : RiverGDF G) (c : CRSInfo)
    (hcrs : gdf.crs = some c) (hepsg : c.toEpsg = some 4326)
    (hcrs2 : gdf2.crs = gdf.crs)
    (hhead : gdf2.geometries.head? = gdf.geometries.head?)
    (hbb : o.bboxQuery (o.totalBounds gdf2.geometries) =
           o.bboxQuery (o.totalBounds gdf.geometries)) :
    get_upstream_subwatersheds o gdf2 = get_upstream_subwatersheds o gdf := by
  have h1 : normalizeCrs o gdf = .ok gdf := normalizeCrs_wgs84 o gdf c hcrs hepsg
  have h1' : normalizeCrs o gdf2 = .ok gdf2 :=
    normalizeCrs_wgs84 o gdf2 c (hcrs2.trans hcrs) hepsg
  have hfetch : fetchCandidates o gdf2 = fetchCandidates o gdf := by
    unfold fetchCandidates
    rw [hbb]
  unfold get_upstream_subwatersheds
  simp only [h1, h1']
  cases hgs : gdf.geometries with
  | nil =>
    have hgs2 : gdf2.geometries = [] := by
      rw [hgs] at hhead
      simpa using hhead
    rw [hgs2]
  | cons g tail =>
    cases hgs2 : gdf2.geometries with
    | nil =>
      rw [hgs, hgs2] at hhead
      simp at hhead
    | cons g2 tail2 =>
      rw [hgs, hgs2] at hhead
      simp only [List.head?_cons, Option.some.injEq] at hhead
      subst hhead
      rw [hfetch]

/-- Witness for C10: two inputs differing only after the first row resolve
identically. -/
theorem C10_witness :
    get_upstream_subwatersheds oW10 gdfW10b = get_upstream_subwatersheds oW10 gdfW10a :=
  C10_first_row_geometry oW10 gdfW10a gdfW10b ⟨some 4326⟩ rfl rfl rfl rfl rfl

/-- C5 counterexample: the claim says a failing geometry-fetch batch call is
fatal and propagates as an error.  On the code it is caught (utils.py lines
314-323): here the bbox query succeeds, the traversal resolves 21 codes
giving two geometry batches; the query for the second batch fails — yet the
call returns the 20 features of the first batch wrapped in success,
propagating no error at all. -/
theorem C5_counterexample :
    oC5b.codesQuery [c5code 20] = .error () ∧
    (runTraversal oC5b.drainQuery (pyStr "01010001") [c5code 0]).upstream = c5codes ∧
    chunks c5codes = [c5codes.take 20, [c5code 20]] ∧
    get_upstream_subwatersheds oC5b gdfUnit4326 =
      .ok ((c5codes.take 20).map (fun cc => ⟨cc, cc, [], ()⟩)) :=
  ⟨rfl, rfl, rfl, rfl⟩

/-- C5 (amended): only a failure of the initial bbox query is fatal and
propagates to the caller.  A failure of a geometry-fetch batch call is
caught, logged and skipped: materialization treats a failing batch exactly
like a batch that successfully returns zero features, so pruning any set of
failing batches to empty successes changes nothing.  The only failure the
assembly stage itself can produce is the empty-result error raised when all
batches together contribute no feature at all. -/
theorem C5_bbox_fatal_batch_nonfatal (o : Oracles G B) (river_gdf : RiverGDF G)
    (c : CRSInfo) (river_geom : G) (rest : List G)
    (hcrs : river_gdf.crs = some c) (hepsg : c.toEpsg = some 4326)
    (hg : river_gdf.geometries = river_geom :: rest)
    (hbb : o.bboxQuery (o.totalBounds river_gdf.geometries) = .error ()) :
    get_upstream_subwatersheds o river_gdf = .error .httpError ∧
    (∀ (cq cq' : List Huc → Except Unit (GeomResp G)),
      (∀ b, cq' b = cq b ∨ ((∃ e, cq b = .error e) ∧ cq' b = .ok ⟨some []⟩)) →
      ∀ up, materialize cq' up = materialize cq up) ∧
    (∀ (o2 : Oracles G B) (gdf2 gdfN : RiverGDF G) (g : G) (tl : List G)
        (feats : List (HucFeature G)),
      normalizeCrs o2 gdf2 = .ok gdfN → gdfN.geometries = g :: tl →
      fetchCandidates o2 gdfN = .ok feats →
      (riverHucsOf o2 g feats).isEmpty = false →
      get_upstream_subwatersheds o2 gdf2 =
        (if (materialize o2.codesQuery
              (runTraversal o2.drainQuery (primaryOf o2 g feats)
                (riverCodesOf o2 g feats)).upstream).isEmpty
         then .error .emptyAssembly
         else .ok (materialize o2.codesQuery
              (runTraversal o2.drainQuery (primaryOf o2 g feats)
                (riverCodesOf o2 g feats)).upstream))) := by
  refine ⟨?_, ?_, ?_⟩
  · exact pipeline_fetch_err o river_gdf river_gdf river_geom rest .httpError
      (normalizeCrs_wgs84 o river_gdf c hcrs hepsg) hg
      (fetchCandidates_err o river_gdf hbb)
  · intro cq cq' hprune up
    exact materialize_congr cq cq' hprune up
  · intro o2 gdf2 gdfN g tl feats h1 h2 h3 h4
    exact pipeline_ok o2 gdf2 gdfN g tl feats h1 h2 h3 h4

/-- Witness for C5 (amended): a concrete bbox failure is fatal; pruning the
failing second batch of `oC5b` to an empty success leaves materialization
unchanged; and a concrete successful call equals the guarded assembly of its
materialized features. -/
theorem C5_witness :
    get_upstream_subwatersheds oW5 gdfUnit4326 = .error .httpError ∧
    materialize (fun b => if b = [c5code 20] then .ok ⟨some []⟩ else oC5b.codesQuery b)
        c5codes = materialize oC5b.codesQuery c5codes ∧
    get_upstream_subwatersheds oW7 gdfUnit4326 =
      (if (materialize oW7.codesQuery
            (runTraversal oW7.drainQuery (primaryOf oW7 () [unitFeat])
              (riverCodesOf oW7 () [unitFeat])).upstream).isEmpty
       then .error .emptyAssembly
       else .ok (materialize oW7.codesQuery
            (runTraversal oW7.drainQuery (primaryOf oW7 () [unitFeat])
              (riverCodesOf oW7 () [unitFeat])).upstream)) :=
  have h := C5_bbox_fatal_batch_nonfatal oW5 gdfUnit4326 ⟨some 4326⟩ () [] rfl rfl rfl rfl
  ⟨h.1,
   h.2.1 oC5b.codesQuery
     (fun b => if b = [c5code 20] then .ok ⟨some []⟩ else oC5b.codesQuery b)
     (fun b => by
       by_cases hb : b = [c5code 20]
       · subst hb
         exact Or.inr ⟨⟨(), rfl⟩, if_pos rfl⟩
       · exact Or.inl (if_neg hb))
     c5codes,
   h.2.2 oW7 gdfUnit4326 gdfUnit4326 () [] [unitFeat] rfl rfl rfl rfl⟩

/-- C1: in every resolution call, the selected codes are never removed (the
river's own codes stay in the upstream set), every code ever added to the
upstream set carries the selected 8-character basin prefix, and — provided
the geometry service only returns features for the codes it was asked —
every feature of the materialized collection carries that prefix too; the
call returns exactly that collection (failing with the empty-result error
when it materializes no feature), so every feature of a successfully
returned collection carries the basin prefix. -/
theorem C1_basin_invariant (o : Oracles G B) (river_gdf gdf : RiverGDF G)
    (river_geom : G) (rest : List G) (features : List (HucFeature G))
    (h1 : normalizeCrs o river_gdf = .ok gdf)
    (h2 : gdf.geometries = river_geom :: rest)
    (h3 : fetchCandidates o gdf = .ok features)
    (h4 : (riverHucsOf o river_geom features).isEmpty = false)
    (hcq : ∀ b resp, o.codesQuery b = .ok resp →
      ∀ f ∈ resp.features?.getD [], f.huc12 ∈ b) :
    (∀ cc ∈ riverCodesOf o river_geom features,
        cc ∈ (runTraversal o.drainQuery (primaryOf o river_geom features)
          (riverCodesOf o river_geom features)).upstream) ∧
    (∀ cc ∈ (runTraversal o.drainQuery (primaryOf o river_geom features)
        (riverCodesOf o river_geom features)).upstream,
      (primaryOf o river_geom features).isPrefixOf cc = true) ∧
    (∀ f ∈ materialize o.codesQuery
        (runTraversal o.drainQuery (primaryOf o river_geom features)
          (riverCodesOf o river_geom features)).upstream,
      (primaryOf o river_geom features).isPrefixOf f.huc12 = true) ∧
    get_upstream_subwatersheds o river_gdf =
      (if (materialize o.codesQuery
            (runTraversal o.drainQuery (primaryOf o river_geom features)
              (riverCodesOf o river_geom features)).upstream).isEmpty
       then .error .emptyAssembly
       else .ok (materialize o.codesQuery
            (runTraversal o.drainQuery (primaryOf o river_geom features)
              (riverCodesOf o river_geom features)).upstream)) := by
  have hinitpre : ∀ cc ∈ riverCodesOf o river_geom features,
      (primaryOf o river_geom features).isPrefixOf cc = true := by
    intro cc hcc
    rw [riverCodesOf, pySet_mem] at hcc
    obtain ⟨f, hf, rfl⟩ := List.mem_map.mp hcc
    have hfil := List.mem_filter.mp hf
    have heq : huc8of f.huc12 = primaryOf o river_geom features := by
      simpa using hfil.2
    rw [← heq]
    unfold huc8of
    exact take_isPrefixOf 8 f.huc12
  have hupPre : ∀ cc ∈ (runTraversal o.drainQuery (primaryOf o river_geom features)
      (riverCodesOf o river_geom features)).upstream,
      (primaryOf o river_geom features).isPrefixOf cc = true := by
    unfold runTraversal
    exact travLoop_upstream_isPrefixOf max_iterations (riverCodesOf o river_geom features)
      (riverCodesOf o river_geom features) [] 0 hinitpre
  refine ⟨?_, hupPre, ?_, pipeline_ok o river_gdf gdf river_geom rest features h1 h2 h3 h4⟩
  · intro cc hcc
    unfold runTraversal
    exact travLoop_upstream_mono max_iterations (riverCodesOf o river_geom features)
      (riverCodesOf o river_geom features) [] 0 cc hcc
  · intro f hf
    obtain ⟨b, hb, resp, hcqb, hfin⟩ := materialize_mem o.codesQuery _ f hf
    have hfb : f.huc12 ∈ b := hcq b resp hcqb f hfin
    exact hupPre f.huc12 (chunks_subset _ b hb f.huc12 hfb)

/-- Witness for C1 at a concrete one-unit scenario whose geometry batch
returns one feature per requested code. -/
theorem C1_witness :
    pyStr "010100010101" ∈ (runTraversal oW7.drainQuery (primaryOf oW7 () [unitFeat])
      (riverCodesOf oW7 () [unitFeat])).upstream ∧
    get_upstream_subwatersheds oW7 gdfUnit4326 =
      .ok [⟨pyStr "010100010101", pyStr "010100010101", [], ()⟩] := by
  have h := C1_basin_invariant oW7 gdfUnit4326 gdfUnit4326 () [] [unitFeat] rfl rfl rfl rfl
    (by
      intro b resp hresp f hfin
      have hr := Except.ok.inj hresp
      rw [← hr] at hfin
      have hfin' : f ∈ b.map (fun cc => (⟨cc, cc, [], ()⟩ : HucFeature Unit)) := hfin
      obtain ⟨cc, hcc, rfl⟩ := List.mem_map.mp hfin'
      exact hcc)
  refine ⟨h.1 (pyStr "010100010101") (by decide), ?_⟩
  rw [h.2.2.2]
  rfl

/-- C6: with B resolved upstream codes the materialization stage issues
exactly `⌈B/20⌉` batch calls, each of at most 20 codes; when exactly one
batch fails (every other batch returning one feature per requested code),
the failure is skipped, nothing propagates (the stage is a total function
whose result the call wraps in a success), and the final feature count is
exactly B minus the size of the failed batch — for 500 codes and a failed
13th batch: 25 calls and 480 features, not zero. -/
theorem C6_batch_accounting (cq : List Huc → Except Unit (GeomResp G)) (upstream : List Huc)
    (pre post : List (List Huc)) (bk : List Huc)
    (hsplit : chunks upstream = pre ++ bk :: post)
    (hfail : cq bk = .error ())
    (hok : ∀ b, b ∈ pre ∨ b ∈ post →
      ∃ resp fs, cq b = .ok resp ∧ resp.features? = some fs ∧ fs.length = b.length) :
    (chunks upstream).length = (upstream.length + 19) / 20 ∧
    (∀ b ∈ chunks upstream, b.length ≤ 20) ∧
    (materialize cq upstream).length = upstream.length - bk.length := by
  refine ⟨chunks_length upstream, chunks_batch_le upstream, ?_⟩
  have hr : ∀ b, b ∈ pre ∨ b ∈ post → respLen cq b = b.length := by
    intro b hb
    obtain ⟨resp, fs, hq, hfs, hlen⟩ := hok b hb
    unfold respLen
    rw [hq]
    dsimp only
    rw [hfs]
    simpa using hlen
  have hbk0 : respLen cq bk = 0 := by
    unfold respLen
    rw [hfail]
  have hpre : (pre.map (respLen cq)).sum = (pre.map List.length).sum := by
    rw [List.map_congr_left (fun b hb => hr b (Or.inl hb))]
  have hpost : (post.map (respLen cq)).sum = (post.map List.length).sum := by
    rw [List.map_congr_left (fun b hb => hr b (Or.inr hb))]
  have htot : ((chunks upstream).map List.length).sum = upstream.length := by
    rw [← List.length_flatten, chunks_flatten]
  rw [materialize_length, hsplit]
  rw [hsplit] at htot
  simp only [List.map_append, List.map_cons, List.sum_append, List.sum_cons] at htot ⊢
  rw [hpre, hpost, hbk0]
  omega

/-- Witness for C6: 45 codes, three batches, the failing second batch's 20
features are the only ones missing. -/
theorem C6_witness :
    (chunks w6codes).length = (w6codes.length + 19) / 20 ∧
    (materialize cqW6 w6codes).length = w6codes.length - w6b1.length := by
  have h := C6_batch_accounting cqW6 w6codes [w6b0] [w6b2] w6b1 (by rfl) (by rfl)
    (by
      intro b hb
      have hbne : b = w6b0 ∨ b = w6b2 := by
        rcases hb with hb | hb
        · exact Or.inl (by simpa using hb)
        · exact Or.inr (by simpa using hb)
      rcases hbne with rfl | rfl
      · exact ⟨⟨some (w6b0.map (fun cc => ⟨cc, [], [], ()⟩))⟩, _,
          by rw [cqW6, if_neg (by decide)], rfl, by simp⟩
      · exact ⟨⟨some (w6b2.map (fun cc => ⟨cc, [], [], ()⟩))⟩, _,
          by rw [cqW6, if_neg (by decide)], rfl, by simp⟩)
  exact ⟨h.1, h.2.2⟩

/-! ## The chain graphs used against C2 and C4 -/

lemma chainX_length (k : Nat) : (chainX k).length = k :=
  List.length_replicate k 'a'

lemma chainX_inj {j k : Nat} (h : chainX j = chainX k) : j = k := by
  have hl := congrArg List.length h
  rw [chainX_length, chainX_length] at hl
  exact hl

lemma chainX_ne_single {c : Char} (hc : c ≠ 'a') (k : Nat) : chainX k ≠ [c] := by
  intro h
  cases k with
  | zero => simp [chainX] at h
  | succ n =>
    rw [chainX, List.replicate_succ] at h
    have := (List.cons.injEq _ _ _ _).mp h
    exact hc this.1.symm

lemma chainX_all_a (k : Nat) : (chainX k).all (· == 'a') = true := by
  rw [List.all_eq_true]
  intro x hx
  have hxa := List.eq_of_mem_replicate hx
  simp [hxa]

lemma chainX_ne_nil {k : Nat} (h : 1 ≤ k) : chainX k ≠ [] := by
  intro he
  have hl := congrArg List.length he
  rw [chainX_length] at hl
  simp at hl
  omega

lemma dqC2_mid (k : Nat) (h1 : 1 ≤ k) (h2 : k < 10002) :
    dqC2 (chainX k) = .ok [⟨chainX (k + 1), chainX k⟩] := by
  unfold dqC2
  rw [if_neg (chainX_ne_nil h1),
    if_pos ⟨chainX_all_a k, by rw [chainX_length]; exact h2⟩, chainX_length]

lemma dqC2_top : dqC2 (chainX 10002) = .ok [] := by
  unfold dqC2
  rw [if_neg (chainX_ne_nil (by omega)), if_neg]
  rintro ⟨-, hl⟩
  rw [chainX_length] at hl
  omega

lemma dqC2_ok (c : Huc) : ∃ l, dqC2 c = .ok l := by
  unfold dqC2
  split
  · exact ⟨_, rfl⟩
  · split
    · exact ⟨_, rfl⟩
    · exact ⟨_, rfl⟩

lemma SC2_mem (c : Huc) : c ∈ SC2 ↔ ∃ k, 1 ≤ k ∧ k ≤ 10002 ∧ c = chainX k := by
  unfold SC2
  constructor
  · intro hc
    obtain ⟨i, hi, rfl⟩ := List.mem_map.mp hc
    rw [List.mem_range] at hi
    exact ⟨i + 1, by omega, by omega, rfl⟩
  · rintro ⟨k, h1, h2, rfl⟩
    refine List.mem_map.mpr ⟨k - 1, List.mem_range.mpr (by omega), ?_⟩
    congr 1
    omega

lemma SC2_nodup : SC2.Nodup := by
  unfold SC2
  refine List.Nodup.map_on ?_ (List.nodup_range 10002)
  intro x _ y _ h
  have := chainX_inj h
  omega

lemma UpReach_dqC2_char :
    ∀ c, UpReach dqC2 [] [chainX 1] c ↔ c ∈ SC2 := by
  intro c
  constructor
  · intro h
    induction h with
    | base c hc =>
      rw [List.mem_singleton] at hc
      subst hc
      exact (SC2_mem _).mpr ⟨1, by omega, by omega, rfl⟩
    | step c feats r hrc hdq hm hp ih =>
      obtain ⟨k, hk1, hk2, rfl⟩ := (SC2_mem c).mp ih
      rcases Nat.lt_or_ge k 10002 with hlt | hge
      · rw [dqC2_mid k hk1 hlt] at hdq
        have hfe := Except.ok.inj hdq
        rw [← hfe] at hm
        rw [List.mem_singleton] at hm
        subst hm
        exact (SC2_mem _).mpr ⟨k + 1, by omega, by omega, rfl⟩
      · have hk : k = 10002 := by omega
        subst hk
        rw [dqC2_top] at hdq
        have hfe := Except.ok.inj hdq
        rw [← hfe] at hm
        cases hm
  · intro hc
    obtain ⟨k, hk1, hk2, rfl⟩ := (SC2_mem c).mp hc
    clear hc
    induction k with
    | zero => omega
    | succ n ih =>
      rcases Nat.lt_or_ge 1 (n + 1) with hgt | hle
      · have hn1 : 1 ≤ n := by omega
        have hreach : UpReach dqC2 [] [chainX 1] (chainX n) := ih hn1 (by omega)
        exact UpReach.step (chainX n) [⟨chainX (n + 1), chainX n⟩] ⟨chainX (n + 1), chainX n⟩
          hreach (dqC2_mid n hn1 (by omega)) (List.mem_singleton.mpr rfl)
          (nil_isPrefixOf _)
      · have hn0 : n = 0 := by omega
        subst hn0
        exact UpReach.base (chainX 1) (List.mem_singleton.mpr rfl)

lemma edge_dqC2_length {c d : Huc} (h : EdgeTo dqC2 [] c d) : d.length = c.length + 1 := by
  obtain ⟨feats, r, hdq, hm, hrd, -⟩ := h
  unfold dqC2 at hdq
  by_cases h0 : c = []
  · rw [if_pos h0] at hdq
    have hfe := Except.ok.inj hdq
    rw [← hfe] at hm
    cases hm
  · rw [if_neg h0] at hdq
    by_cases h1 : c.all (· == 'a') = true ∧ c.length < 10002
    · rw [if_pos h1] at hdq
      have hfe := Except.ok.inj hdq
      rw [← hfe] at hm
      rw [List.mem_singleton] at hm
      subst hm
      rw [← hrd]
      exact chainX_length (c.length + 1)
    · rw [if_neg h1] at hdq
      have hfe := Except.ok.inj hdq
      rw [← hfe] at hm
      cases hm

lemma noCycle_dqC2 : NoDrainCycle dqC2 [] := by
  intro c hcyc
  have hlt : ∀ a b : Huc, Relation.TransGen (EdgeTo dqC2 []) a b → a.length < b.length := by
    intro a b h
    induction h with
    | single h => rw [edge_dqC2_length h]; omega
    | tail hab hbc ih =>
      have := edge_dqC2_length hbc
      omega
  exact absurd (hlt c c hcyc) (by omega)

lemma range_map_chain_shift (x m : Nat) :
    chainX x :: (List.range m).map (fun i => chainX (x + 1 + i))
      = (List.range (m + 1)).map (fun i => chainX (x + i)) := by
  rw [List.range_succ_eq_map, List.map_cons, List.map_map]
  refine congrArg₂ List.cons ?_ ?_
  · show chainX x = chainX (x + 0)
    rfl
  · show (List.range m).map (fun i => chainX (x + 1 + i))
        = (List.range m).map (fun i => chainX (x + (i + 1)))
    exact List.map_congr_left (fun i _ => by congr 1; omega)

lemma chainDrain (dq : Huc → Except Unit (List DrainRec)) (hi : Nat)
    (hdq : ∀ k, 1 ≤ k → k < hi → dq (chainX k) = .ok [⟨chainX (k + 1), chainX k⟩]) :
    ∀ (fuel k : Nat) (up proc : List Huc) (pops : Nat), 1 ≤ k → k + fuel ≤ hi →
      (∀ j, k < j → chainX j ∉ up) →
      (∀ j, k ≤ j → chainX j ∉ proc) →
      travLoop dq [] fuel up [chainX k] proc pops =
        ⟨up ++ (List.range fuel).map (fun i => chainX (k + 1 + i)),
         proc ++ (List.range fuel).map (fun i => chainX (k + i)),
         [chainX (k + fuel)], pops + fuel⟩ := by
  intro fuel
  induction fuel with
  | zero =>
    intro k up proc pops h1 h2 hup hproc
    rw [travLoop_zero]
    simp
  | succ n ih =>
    intro k up proc pops h1 h2 hup hproc
    have hkproc : chainX k ∉ proc := hproc k le_rfl
    have hdqk : dq (chainX k) = .ok [⟨chainX (k + 1), chainX k⟩] := hdq k h1 (by omega)
    rw [travLoop_okstep n up [] pops hkproc hdqk]
    have hnotin : chainX (k + 1) ∉ up := hup (k + 1) (by omega)
    have haddeq : addNew [] [⟨chainX (k + 1), chainX k⟩] up []
        = (up ++ [chainX (k + 1)], [chainX (k + 1)]) := by
      rw [addNew_cons, if_pos ⟨nil_isPrefixOf _, hnotin⟩, addNew_nil]
      rfl
    rw [haddeq]
    dsimp only
    rw [List.nil_append]
    rw [ih (k + 1) (up ++ [chainX (k + 1)]) (proc ++ [chainX k]) (pops + 1)
      (by omega) (by omega) ?_ ?_]
    · rw [TravResult.mk.injEq]
      refine ⟨?_, ?_, ?_, by omega⟩
      · rw [List.append_assoc, List.singleton_append, range_map_chain_shift (k + 1) n]
      · rw [List.append_assoc, List.singleton_append, range_map_chain_shift k n]
      · rw [show k + 1 + n = k + (n + 1) from by omega]
    · intro j hj hmem
      rcases List.mem_append.mp hmem with hj1 | hj2
      · exact hup j (by omega) hj1
      · rw [List.mem_singleton] at hj2
        have := chainX_inj hj2
        omega
    · intro j hj hmem
      rcases List.mem_append.mp hmem with hj1 | hj2
      · exact hproc j (by omega) hj1
      · rw [List.mem_singleton] at hj2
        have := chainX_inj hj2
        omega

/-- C2 (amended): for every drains-to graph with no cycles and N units in
the selected basin reachable (in reverse) from the river's units, provided
additionally N does not exceed the 10,000-pop iteration cap, the traversal
worklist empties within N pops, each reachable unit is expanded (queried
via the drain-target oracle) exactly once — the processed list is exactly
the N units, without duplicates — and the traversal returns all N codes. -/
theorem C2_traversal_complete (dq : Huc → Except Unit (List DrainRec)) (primary_huc8 : Huc)
    (init S : List Huc)
    (hinit_nodup : init.Nodup) (hSnd : S.Nodup)
    (hok : ∀ c ∈ S, ∃ l, dq c = .ok l)
    (hchar : ∀ c, UpReach dq primary_huc8 init c ↔ c ∈ S)
    (hacyc : NoDrainCycle dq primary_huc8)
    (hN : S.length ≤ max_iterations) :
    (runTraversal dq primary_huc8 init).remaining = [] ∧
    (runTraversal dq primary_huc8 init).pops ≤ S.length ∧
    (runTraversal dq primary_huc8 init).processed.Nodup ∧
    (∀ c, c ∈ (runTraversal dq primary_huc8 init).processed ↔ c ∈ S) ∧
    (∀ c, c ∈ (runTraversal dq primary_huc8 init).upstream ↔ c ∈ S) := by
  obtain ⟨h1, h2, h3, h4, h5⟩ := runTraversal_master init S hinit_nodup hSnd hok hchar hN
  exact ⟨h1, le_of_eq h2, h3, h4, h5⟩

/-- Witness for C2 (amended) on the one-unit acyclic graph with no upstream
neighbors. -/
theorem C2_witness :
    (runTraversal dqW2 (pyStr "12345678") [pyStr "123456789012"]).remaining = [] ∧
    (runTraversal dqW2 (pyStr "12345678") [pyStr "123456789012"]).pops ≤
      ([pyStr "123456789012"] : List Huc).length ∧
    pyStr "123456789012" ∈
      (runTraversal dqW2 (pyStr "12345678") [pyStr "123456789012"]).upstream := by
  have noE : ∀ a b : Huc, ¬ EdgeTo dqW2 (pyStr "12345678") a b := by
    rintro a b ⟨feats, r, hdq, hm, -, -⟩
    have hfe : ([] : List DrainRec) = feats := Except.ok.inj hdq
    rw [← hfe] at hm
    cases hm
  have h := C2_traversal_complete dqW2 (pyStr "12345678") [pyStr "123456789012"]
    [pyStr "123456789012"] (List.nodup_singleton _) (List.nodup_singleton _)
    (fun c _ => ⟨[], rfl⟩)
    (by
      intro c
      constructor
      · intro h
        induction h with
        | base c hc => exact hc
        | step c feats r hrc hdq hm hp ih =>
          have hfe : ([] : List DrainRec) = feats := Except.ok.inj hdq
          rw [← hfe] at hm
          cases hm
      · intro hc
        exact UpReach.base c hc)
    (by
      intro c hcyc
      cases hcyc with
      | single h => exact noE _ _ h
      | tail _ h => exact noE _ _ h)
    (by
      rw [List.length_singleton]
      unfold max_iterations
      omega)
  exact ⟨h.1, h.2.1, (h.2.2.2.2 _).mpr (List.mem_singleton.mpr rfl)⟩

/-- C2 counterexample: the chain graph `dqC2` has no cycles, every query
succeeds, and exactly the 10,002 units of `SC2` are reachable from the
river's single unit `chainX 1` — all hypotheses of C2 as stated hold — yet
because of the 10,000-pop cap the worklist never empties and the top two
units of the chain are never returned: the traversal stops with a nonempty
worklist and `chainX 10002 ∈ SC2` is missing from the upstream set. -/
theorem C2_counterexample :
    (([chainX 1] : List Huc).Nodup ∧ SC2.Nodup ∧
     (∀ c ∈ SC2, ∃ l, dqC2 c = .ok l) ∧
     (∀ c, UpReach dqC2 [] [chainX 1] c ↔ c ∈ SC2) ∧
     NoDrainCycle dqC2 []) ∧
    chainX 10002 ∈ SC2 ∧
    ¬ ((runTraversal dqC2 [] [chainX 1]).remaining = [] ∧
       (∀ c, c ∈ (runTraversal dqC2 [] [chainX 1]).upstream ↔ c ∈ SC2)) := by
  have hrun : runTraversal dqC2 [] [chainX 1] =
      ⟨[chainX 1] ++ (List.range 10000).map (fun i => chainX (1 + 1 + i)),
       [] ++ (List.range 10000).map (fun i => chainX (1 + i)),
       [chainX (1 + 10000)], 0 + 10000⟩ := by
    unfold runTraversal max_iterations
    refine chainDrain dqC2 10002 (fun k hk1 hk2 => dqC2_mid k hk1 hk2) 10000 1 [chainX 1] [] 0
      le_rfl (by omega) ?_ ?_
    · intro j hj hm
      rw [List.mem_singleton] at hm
      have := chainX_inj hm
      omega
    · intro j _ hm
      cases hm
  refine ⟨⟨List.nodup_singleton _, SC2_nodup, fun c _ => dqC2_ok c, UpReach_dqC2_char,
    noCycle_dqC2⟩, (SC2_mem _).mpr ⟨10002, by omega, by omega, rfl⟩, ?_⟩
  rintro ⟨hrem, -⟩
  rw [hrun] at hrem
  cases hrem

/-! ## C4: single failing expansion -/

lemma dqC4_root : dqC4 ['r'] = .ok [⟨['f'], ['r']⟩, ⟨chainX 1, ['r']⟩] := rfl

lemma dqC4_f : dqC4 ['f'] = .error () := rfl

lemma dqC4_mid (k : Nat) (h1 : 1 ≤ k) (h2 : k < 10002) :
    dqC4 (chainX k) = .ok [⟨chainX (k + 1), chainX k⟩] := by
  unfold dqC4
  rw [if_neg (chainX_ne_single (by decide) k), if_neg (chainX_ne_single (by decide) k),
    if_pos ⟨chainX_ne_nil h1, chainX_all_a k, by rw [chainX_length]; exact h2⟩,
    chainX_length]

lemma dqC4_top : dqC4 (chainX 10002) = .ok [] := by
  unfold dqC4
  rw [if_neg (chainX_ne_single (by decide) 10002),
    if_neg (chainX_ne_single (by decide) 10002), if_neg]
  rintro ⟨-, -, hl⟩
  rw [chainX_length] at hl
  omega

lemma prunedC4_mid (k : Nat) (h1 : 1 ≤ k) (h2 : k < 10002) :
    (fun c => if c = ['f'] then (.ok [] : Except Unit (List DrainRec)) else dqC4 c)
      (chainX k) = .ok [⟨chainX (k + 1), chainX k⟩] := by
  show (if chainX k = ['f'] then _ else dqC4 (chainX k)) = _
  rw [if_neg (chainX_ne_single (by decide) k), dqC4_mid k h1 h2]

lemma prunedC4_top :
    (fun c => if c = ['f'] then (.ok [] : Except Unit (List DrainRec)) else dqC4 c)
      (chainX 10002) = .ok [] := by
  show (if chainX 10002 = ['f'] then _ else dqC4 (chainX 10002)) = _
  rw [if_neg (chainX_ne_single (by decide) 10002), dqC4_top]

lemma SC4_nodup : SC4.Nodup := by
  unfold SC4
  refine List.nodup_cons.mpr ⟨?_, List.nodup_cons.mpr ⟨?_, SC2_nodup⟩⟩
  · intro h
    rcases List.mem_cons.mp h with he | hm
    · exact absurd he (by decide)
    · obtain ⟨k, hk1, -, he⟩ := (SC2_mem _).mp hm
      exact chainX_ne_single (by decide) k he.symm
  · intro hm
    obtain ⟨k, hk1, -, he⟩ := (SC2_mem _).mp hm
    exact chainX_ne_single (by decide) k he.symm

lemma hokC4 : ∀ c ∈ SC4, c ≠ ['f'] → ∃ l, dqC4 c = .ok l := by
  intro c hc hne
  rcases List.mem_cons.mp hc with rfl | hc2
  · exact ⟨_, dqC4_root⟩
  rcases List.mem_cons.mp hc2 with rfl | hc3
  · exact absurd rfl hne
  obtain ⟨k, hk1, hk2, rfl⟩ := (SC2_mem _).mp hc3
  rcases Nat.lt_or_ge k 10002 with hlt | hge
  · exact ⟨_, dqC4_mid k hk1 hlt⟩
  · have hk : k = 10002 := by omega
    subst hk
    exact ⟨_, dqC4_top⟩

lemma UpReach_prunedC4_char :
    ∀ c, UpReach (fun c => if c = ['f'] then .ok [] else dqC4 c) [] [['r']] c ↔
      c ∈ SC4 := by
  have hchain : ∀ k, 1 ≤ k → k ≤ 10002 →
      UpReach (fun c => if c = ['f'] then .ok [] else dqC4 c) [] [['r']] (chainX k) := by
    intro k
    induction k with
    | zero => omega
    | succ n ih =>
      intro h1 h2
      rcases Nat.lt_or_ge 1 (n + 1) with hgt | hle
      · have hn1 : 1 ≤ n := by omega
        exact UpReach.step (chainX n) [⟨chainX (n + 1), chainX n⟩]
          ⟨chainX (n + 1), chainX n⟩ (ih hn1 (by omega)) (prunedC4_mid n hn1 (by omega))
          (List.mem_singleton.mpr rfl) (nil_isPrefixOf _)
      · have hn0 : n = 0 := by omega
        subst hn0
        exact UpReach.step ['r'] [⟨['f'], ['r']⟩, ⟨chainX 1, ['r']⟩] ⟨chainX 1, ['r']⟩
          (UpReach.base _ (List.mem_singleton.mpr rfl)) rfl
          (List.mem_cons_of_mem _ (List.mem_singleton.mpr rfl)) (nil_isPrefixOf _)
  intro c
  constructor
  · intro h
    induction h with
    | base c hc =>
      rw [List.mem_singleton] at hc
      subst hc
      exact List.mem_cons_self _ _
    | step c feats r hrc hdq hm hp ih =>
      rcases List.mem_cons.mp ih with rfl | ih2
      · have hfe := Except.ok.inj
          ((rfl : (fun c => if c = ['f'] then (.ok [] : Except Unit (List DrainRec))
            else dqC4 c) ['r'] = .ok [⟨['f'], ['r']⟩, ⟨chainX 1, ['r']⟩]).symm.trans hdq)
        rw [← hfe] at hm
        rcases List.mem_cons.mp hm with rfl | hm2
        · exact List.mem_cons_of_mem _ (List.mem_cons_self _ _)
        · rw [List.mem_singleton] at hm2
          subst hm2
          exact List.mem_cons_of_mem _ (List.mem_cons_of_mem _
            ((SC2_mem _).mpr ⟨1, by omega, by omega, rfl⟩))
      rcases List.mem_cons.mp ih2 with rfl | ih3
      · have hfe := Except.ok.inj
          ((rfl : (fun c => if c = ['f'] then (.ok [] : Except Unit (List DrainRec))
            else dqC4 c) ['f'] = .ok []).symm.trans hdq)
        rw [← hfe] at hm
        cases hm
      · obtain ⟨k, hk1, hk2, rfl⟩ := (SC2_mem _).mp ih3
        rcases Nat.lt_or_ge k 10002 with hlt | hge
        · have hfe := Except.ok.inj ((prunedC4_mid k hk1 hlt).symm.trans hdq)
          rw [← hfe] at hm
          rw [List.mem_singleton] at hm
          subst hm
          exact List.mem_cons_of_mem _ (List.mem_cons_of_mem _
            ((SC2_mem _).mpr ⟨k + 1, by omega, by omega, rfl⟩))
        · have hk : k = 10002 := by omega
          subst hk
          have hfe := Except.ok.inj (prunedC4_top.symm.trans hdq)
          rw [← hfe] at hm
          cases hm
  · intro hc
    rcases List.mem_cons.mp hc with rfl | hc2
    · exact UpReach.base _ (List.mem_singleton.mpr rfl)
    rcases List.mem_cons.mp hc2 with rfl | hc3
    · exact UpReach.step ['r'] [⟨['f'], ['r']⟩, ⟨chainX 1, ['r']⟩] ⟨['f'], ['r']⟩
        (UpReach.base _ (List.mem_singleton.mpr rfl)) rfl
        (List.mem_cons_self _ _) (nil_isPrefixOf _)
    · obtain ⟨k, hk1, hk2, rfl⟩ := (SC2_mem _).mp hc3
      exact hchain k hk1 hk2

/-- C4 (amended): if the drain-target query fails for exactly one code `f`
mid-traversal, no exception propagates to the caller: the traversal result
is exactly the result obtained on the pruned graph in which `f` has no
upstream neighbors, and — provided the pruned reachable set S fits within
the 10,000-pop iteration cap — the final upstream set equals S, i.e. the
full expected set minus only the subtree reachable solely through the
failed expansion. -/
theorem C4_failed_expansion (dq : Huc → Except Unit (List DrainRec)) (primary_huc8 f : Huc)
    (init S : List Huc)
    (hfail : dq f = .error ())
    (hinit_nodup : init.Nodup) (hSnd : S.Nodup)
    (hok : ∀ c ∈ S, c ≠ f → ∃ l, dq c = .ok l)
    (hchar : ∀ c, UpReach (fun c => if c = f then .ok [] else dq c) primary_huc8 init c ↔
      c ∈ S)
    (hN : S.length ≤ max_iterations) :
    runTraversal dq primary_huc8 init =
      runTraversal (fun c => if c = f then .ok [] else dq c) primary_huc8 init ∧
    (runTraversal dq primary_huc8 init).remaining = [] ∧
    (∀ c, c ∈ (runTraversal dq primary_huc8 init).upstream ↔ c ∈ S) := by
  have hcongr : runTraversal dq primary_huc8 init =
      runTraversal (fun c => if c = f then .ok [] else dq c) primary_huc8 init := by
    unfold runTraversal
    refine travLoop_congr dq (fun c => if c = f then .ok [] else dq c) primary_huc8
      (fun c => ?_) max_iterations init init [] 0
    by_cases hc : c = f
    · subst hc
      exact Or.inr ⟨(), hfail, if_pos rfl⟩
    · exact Or.inl (if_neg hc)
  have hok' : ∀ c ∈ S, ∃ l, (fun c => if c = f then .ok [] else dq c) c = .ok l := by
    intro c hc
    by_cases hcf : c = f
    · subst hcf
      exact ⟨[], if_pos rfl⟩
    · obtain ⟨l, hl⟩ := hok c hc hcf
      exact ⟨l, (if_neg hcf).trans hl⟩
  obtain ⟨h1, -, -, -, h5⟩ := runTraversal_master init S hinit_nodup hSnd hok' hchar hN
  refine ⟨hcongr, ?_, ?_⟩
  · rw [hcongr]
    exact h1
  · intro c
    rw [hcongr]
    exact h5 c

/-- Witness for C4: a two-unit graph whose second unit's expansion fails;
the failed branch is pruned, a third code never reachable stays out. -/
theorem C4_witness :
    (runTraversal dqW4 [] [pyStr "a"]).remaining = [] ∧
    pyStr "b" ∈ (runTraversal dqW4 [] [pyStr "a"]).upstream ∧
    pyStr "c" ∉ (runTraversal dqW4 [] [pyStr "a"]).upstream := by
  have h := C4_failed_expansion dqW4 [] (pyStr "b") [pyStr "a"] [pyStr "a", pyStr "b"]
    rfl (by decide) (by decide)
    (by
      intro c hc hne
      rcases List.mem_cons.mp hc with rfl | hc2
      · exact ⟨[⟨pyStr "b", pyStr "a"⟩], rfl⟩
      · rw [List.mem_singleton] at hc2
        exact absurd hc2 hne)
    (by
      intro c
      constructor
      · intro h
        induction h with
        | base c hc =>
          rw [List.mem_singleton] at hc
          subst hc
          exact List.mem_cons_self _ _
        | step c feats r hrc hdq hm hp ih =>
          rcases List.mem_cons.mp ih with rfl | ih2
          · have hfe := Except.ok.inj
              ((rfl : (fun c => if c = pyStr "b" then (.ok [] : Except Unit (List DrainRec))
                else dqW4 c) (pyStr "a") = .ok [⟨pyStr "b", pyStr "a"⟩]).symm.trans hdq)
            rw [← hfe] at hm
            rw [List.mem_singleton] at hm
            subst hm
            exact List.mem_cons_of_mem _ (List.mem_singleton.mpr rfl)
          · rw [List.mem_singleton] at ih2
            subst ih2
            have hfe := Except.ok.inj
              ((rfl : (fun c => if c = pyStr "b" then (.ok [] : Except Unit (List DrainRec))
                else dqW4 c) (pyStr "b") = .ok []).symm.trans hdq)
            rw [← hfe] at hm
            cases hm
      · intro hc
        rcases List.mem_cons.mp hc with rfl | hc2
        · exact UpReach.base _ (List.mem_singleton.mpr rfl)
        · rw [List.mem_singleton] at hc2
          subst hc2
          exact UpReach.step (pyStr "a") [⟨pyStr "b", pyStr "a"⟩] ⟨pyStr "b", pyStr "a"⟩
            (UpReach.base _ (List.mem_singleton.mpr rfl)) rfl
            (List.mem_singleton.mpr rfl) (nil_isPrefixOf _))
    (by
      unfold max_iterations
      simp)
  refine ⟨h.2.1, (h.2.2 _).mpr (by decide), fun hc => ?_⟩
  have hmem := (h.2.2 _).mp hc
  exact absurd hmem (by decide)

/-- C4 counterexample: the graph `dqC4` fails for exactly the one code
`['f']` and every hypothesis of C4 as stated holds for the pruned expected
set `SC4` — but `SC4` has 10,004 units, the 10,000-pop cap cuts the
traversal short, and the final upstream set is missing `chainX 10002`
even though it is reachable without ever using the failed expansion. -/
theorem C4_counterexample :
    (dqC4 ['f'] = .error () ∧
     ([['r']] : List Huc).Nodup ∧ SC4.Nodup ∧
     (∀ c ∈ SC4, c ≠ ['f'] → ∃ l, dqC4 c = .ok l) ∧
     (∀ c, UpReach (fun c => if c = ['f'] then .ok [] else dqC4 c) [] [['r']] c ↔
       c ∈ SC4)) ∧
    chainX 10002 ∈ SC4 ∧
    ¬ ((runTraversal dqC4 [] [['r']]).remaining = [] ∧
       (∀ c, c ∈ (runTraversal dqC4 [] [['r']]).upstream ↔ c ∈ SC4)) := by
  have hrun4 : runTraversal dqC4 [] [['r']] =
      travLoop dqC4 [] 9998 [['r'], ['f'], chainX 1] [chainX 1] [['r'], ['f']] 2 := by
    show travLoop dqC4 [] (9999 + 1) [['r']] [['r']] [] 0 = _
    rw [travLoop_okstep 9999 [['r']] [] 0 (List.not_mem_nil _) dqC4_root]
    show travLoop dqC4 [] (9998 + 1) [['r'], ['f'], chainX 1] [['f'], chainX 1] [['r']] 1 = _
    rw [travLoop_err 9998 [['r'], ['f'], chainX 1] [chainX 1] 1 (by decide) dqC4_f]
    rfl
  have hfinal : travLoop dqC4 [] 9998 [['r'], ['f'], chainX 1] [chainX 1] [['r'], ['f']] 2 =
      ⟨[['r'], ['f'], chainX 1] ++ (List.range 9998).map (fun i => chainX (1 + 1 + i)),
       [['r'], ['f']] ++ (List.range 9998).map (fun i => chainX (1 + i)),
       [chainX (1 + 9998)], 2 + 9998⟩ := by
    refine chainDrain dqC4 10002 (fun k hk1 hk2 => dqC4_mid k hk1 hk2) 9998 1
      [['r'], ['f'], chainX 1] [['r'], ['f']] 2 le_rfl (by omega) ?_ ?_
    · intro j hj hm
      rcases List.mem_cons.mp hm with he | hm2
      · exact chainX_ne_single (by decide) j he
      rcases List.mem_cons.mp hm2 with he | hm3
      · exact chainX_ne_single (by decide) j he
      · rw [List.mem_singleton] at hm3
        have := chainX_inj hm3
        omega
    · intro j hj hm
      rcases List.mem_cons.mp hm with he | hm2
      · exact chainX_ne_single (by decide) j he
      · rw [List.mem_singleton] at hm2
        exact chainX_ne_single (by decide) j hm2
  have hup_eq : (runTraversal dqC4 [] [['r']]).upstream =
      [['r'], ['f'], chainX 1] ++ (List.range 9998).map (fun i => chainX (1 + 1 + i)) := by
    rw [hrun4, hfinal]
  refine ⟨⟨dqC4_f, List.nodup_singleton _, SC4_nodup, hokC4, UpReach_prunedC4_char⟩,
    List.mem_cons_of_mem _ (List.mem_cons_of_mem _
      ((SC2_mem _).mpr ⟨10002, by omega, by omega, rfl⟩)), ?_⟩
  rintro ⟨-, hmemiff⟩
  have hin := (hmemiff (chainX 10002)).mpr (List.mem_cons_of_mem _
    (List.mem_cons_of_mem _ ((SC2_mem _).mpr ⟨10002, by omega, by omega, rfl⟩)))
  rw [hup_eq] at hin
  rcases List.mem_append.mp hin with hin1 | hin2
  · rcases List.mem_cons.mp hin1 with he | hin1b
    · exact chainX_ne_single (by decide) 10002 he
    rcases List.mem_cons.mp hin1b with he | hin1c
    · exact chainX_ne_single (by decide) 10002 he
    · rw [List.mem_singleton] at hin1c
      have := chainX_inj hin1c
      omega
  · obtain ⟨i, hi, he⟩ := List.mem_map.mp hin2
    rw [List.mem_range] at hi
    have := chainX_inj he
    omega

/-! ## C7: reaching the cap does not by itself guarantee a successful call -/

lemma dqC7_chain (k : Nat) (h2 : k < 10002) :
    dqC7 (chainX k) = .ok [⟨chainX (k + 1), chainX k⟩] := by
  unfold dqC7
  rw [if_pos ⟨chainX_all_a k, by rw [chainX_length]; exact h2⟩, chainX_length]

lemma dqC7_nil : dqC7 [] = .ok [⟨chainX 1, []⟩] := by
  unfold dqC7
  rw [if_pos ⟨rfl, by decide⟩]
  rfl

lemma runC7 : runTraversal dqC7 [] [[]] =
    ⟨[[], chainX 1] ++ (List.range 9999).map (fun i => chainX (1 + 1 + i)),
     [[]] ++ (List.range 9999).map (fun i => chainX (1 + i)),
     [chainX (1 + 9999)], 1 + 9999⟩ := by
  have hrun : runTraversal dqC7 [] [[]] =
      travLoop dqC7 [] 9999 [[], chainX 1] [chainX 1] [[]] 1 := by
    show travLoop dqC7 [] (9999 + 1) [[]] [[]] [] 0 = _
    rw [travLoop_okstep 9999 [[]] [] 0 (List.not_mem_nil _) dqC7_nil]
    rfl
  rw [hrun]
  refine chainDrain dqC7 10002 (fun k hk1 hk2 => dqC7_chain k hk2) 9999 1
    [[], chainX 1] [[]] 1 le_rfl (by omega) ?_ ?_
  · intro j hj hm
    rcases List.mem_cons.mp hm with he | hm2
    · exact chainX_ne_nil (by omega) he
    · rw [List.mem_singleton] at hm2
      have := chainX_inj hm2
      omega
  · intro j hj hm
    rw [List.mem_singleton] at hm
    exact chainX_ne_nil hj hm

/-- C7 counterexample: the claim says that whenever the 10,000-pop cap is
reached, the call still succeeds with whatever has been collected so far.
Here the drains-to chain of `oC7` forces exactly 10,000 pops — the cap is
reached with a nonempty worklist left — and every geometry batch fails, so
zero features are materialized: the final unguarded
`GeoDataFrame.from_features` raises (utils.py line 328) and the call returns
an error, not a success. -/
theorem C7_counterexample :
    (runTraversal oC7.drainQuery (primaryOf oC7 () [c7feat])
        (riverCodesOf oC7 () [c7feat])).pops = max_iterations ∧
    (runTraversal oC7.drainQuery (primaryOf oC7 () [c7feat])
        (riverCodesOf oC7 () [c7feat])).remaining ≠ [] ∧
    get_upstream_subwatersheds oC7 gdfUnit4326 = .error .emptyAssembly := by
  have hdq : oC7.drainQuery = dqC7 := rfl
  have hprim : primaryOf oC7 () [c7feat] = [] := rfl
  have hcodes : riverCodesOf oC7 () [c7feat] = [[]] := rfl
  refine ⟨?_, ?_, ?_⟩
  · rw [hdq, hprim, hcodes, runC7]
    rfl
  · rw [hdq, hprim, hcodes, runC7]
    simp
  · have hpipe := pipeline_ok oC7 gdfUnit4326 gdfUnit4326 () [] [c7feat] rfl rfl rfl rfl
    rw [hpipe]
    rw [materialize_of_error oC7.codesQuery (fun b => rfl) _]
    rfl

end Wenokn
